import Mathlib

/-!
Verification of the fast-trips assignment engine (`fasttrips/Assignment.py`).

The Python source is shallowly embedded:
* clock times and durations are rationals (minutes); the Python code works
  with `datetime` at second precision, which embeds losslessly into `ℚ`;
* floating-point generalized costs of the stochastic hyperpath are real
  numbers, with `math.exp` / `math.log` embedded as `Real.exp` / `Real.log`;
* Python dictionaries keyed by stop or trip id are embedded as functions
  out of `ℕ` (with `Option` for possibly-absent entries), and Python lists
  as `List`;
* exceptions (`ZeroDivisionError`, `NameError`, the explicit `raise`
  statements) are embedded with `Except String`.
-/

namespace FastTrips

/-- Stop, trip, TAZ and passenger identifiers. -/
abbrev StopId := Nat
abbrev TripId := Nat
abbrev PaxId  := Nat

/-- A departure/arrival mode: the `Path.STATE_MODE_*` string constants
`Access`, `Egress`, `Transfer`, or a trip id (`Path.STATE_IDX_DEPARRMODE`
holds either a mode string or a trip id in the Python source). -/
inductive Mode where
  | access : Mode
  | egress : Mode
  | transfer : Mode
  | trip : TripId → Mode
deriving DecidableEq

/-- Whether a mode is an actual transit trip (as opposed to a walk leg). -/
def Mode.isTrip : Mode → Bool
  | .trip _ => true
  | _ => false

/-! ## `Assignment.choose_state` (lines 514-531)

`prob_state_list` is a list of `(cumulative probability, state)` pairs with
integer cumulative weights; the drawn random integer is reduced modulo the
last cumulative weight and the first bucket exceeding it is returned.
`none` embeds the `raise Exception("This shouldn't happen")` path, and the
error embeds Python's `ZeroDivisionError` on `% 0`. -/
def choose_state {α : Type} (randomNum : ℤ) (probStateList : List (ℤ × α)) :
    Except String α :=
  match probStateList.getLast? with
  | none => .error "IndexError"
  | some lastPair =>
    if lastPair.1 = 0 then .error "ZeroDivisionError"
    else
      let r := randomNum % lastPair.1
      match probStateList.find? (fun p => decide (r < p.1)) with
      | some p => .ok p.2
      | none => .error "This shouldn't happen"

/-! ## `Assignment.assign_paths` (lines 112-150)

The outer iteration loop.  `results i = (num_paths_assigned,
num_passengers_arrived)` stands for the collaborator calls
`assign_passengers` and `simulate` in iteration `i`.  The capacity gap is
`100·(assigned − arrived)/assigned`; Python raises `ZeroDivisionError`
when `assigned = 0`, and `NameError` when `SIMULATION_FLAG` is off because
`num_passengers_arrived` is then never bound.  The returned number is the
count of executed loop iterations. -/

inductive AsgnType where
  | simOnly : AsgnType
  | det : AsgnType
  | sto : AsgnType
deriving DecidableEq

/-- `capacity_gap = 100.0*num_bumped_passengers/num_paths_assigned` (line 138),
with `num_bumped_passengers = num_paths_assigned - num_passengers_arrived`. -/
def capacityGap (assigned arrived : ℕ) : ℚ :=
  100 * ((assigned : ℚ) - (arrived : ℚ)) / (assigned : ℚ)

/-- The loop-exit test of line 145:
`capacity_gap < 0.001 or ASSIGNMENT_TYPE == ASSIGNMENT_TYPE_STO_ASGN`. -/
def breakCond (atype : AsgnType) (results : ℕ → ℕ × ℕ) (i : ℕ) : Prop :=
  capacityGap (results i).1 (results i).2 < 1/1000 ∨ atype = .sto

instance (atype results i) : Decidable (breakCond atype results i) := by
  unfold breakCond; infer_instance

/-- One pass of `for iteration in range(1, ITERATION_FLAG+1)` starting at
iteration `i` with `fuel` iterations left; returns how many iterations ran. -/
def assignPathsGo (atype : AsgnType) (simFlag : Bool) (results : ℕ → ℕ × ℕ) :
    ℕ → ℕ → Except String ℕ
  | _, 0 => .ok 0
  | i, fuel + 1 =>
    if atype = .simOnly then .error "Simulation only not implemented yet"
    else
      let assigned := (results i).1
      if simFlag = false then .error "NameError"
      else if assigned = 0 then .error "ZeroDivisionError"
      else if breakCond atype results i then .ok 1
      else
        match assignPathsGo atype simFlag results (i + 1) fuel with
        | .ok m => .ok (m + 1)
        | .error e => .error e

/-- `Assignment.assign_paths`: run the loop from iteration 1 with
`ITERATION_FLAG = flag` iterations available. -/
def assign_paths (atype : AsgnType) (simFlag : Bool) (flag : ℕ)
    (results : ℕ → ℕ × ℕ) : Except String ℕ :=
  assignPathsGo atype simFlag results 1 flag

theorem assignPathsGo_le {atype : AsgnType} {simFlag : Bool}
    {results : ℕ → ℕ × ℕ} {i fuel n : ℕ}
    (h : assignPathsGo atype simFlag results i fuel = .ok n) : n ≤ fuel := by
  induction fuel generalizing i n with
  | zero =>
    simp only [assignPathsGo] at h
    injection h with h
    omega
  | succ fuel ih =>
    simp only [assignPathsGo] at h
    split at h
    · exact absurd h (by simp)
    · split at h
      · exact absurd h (by simp)
      · split at h
        · exact absurd h (by simp)
        · split at h
          · injection h with h; omega
          · split at h
            · injection h with h
              subst h
              exact Nat.succ_le_succ (ih (by assumption))
            · exact absurd h (by simp)

theorem assignPathsGo_no_early_break {atype : AsgnType} {simFlag : Bool}
    {results : ℕ → ℕ × ℕ} {i fuel n : ℕ}
    (h : assignPathsGo atype simFlag results i fuel = .ok n) :
    ∀ j, j + 1 < n → ¬ breakCond atype results (i + j) := by
  induction fuel generalizing i n with
  | zero =>
    simp only [assignPathsGo] at h
    injection h with h
    omega
  | succ fuel ih =>
    simp only [assignPathsGo] at h
    split at h
    · exact absurd h (by simp)
    · split at h
      · exact absurd h (by simp)
      · split at h
        · exact absurd h (by simp)
        · split at h
          · injection h with h; omega
          · rename_i hnb
            split at h
            · rename_i m hm
              injection h with h
              subst h
              intro j hj
              match j with
              | 0 => simpa using hnb
              | j' + 1 =>
                have := ih hm j' (by omega)
                simpa [Nat.add_assoc, Nat.add_comm 1 j'] using this
            · exact absurd h (by simp)

theorem assignPathsGo_break_at_exit {atype : AsgnType} {simFlag : Bool}
    {results : ℕ → ℕ × ℕ} {i fuel n : ℕ}
    (h : assignPathsGo atype simFlag results i fuel = .ok n) (hlt : n < fuel) :
    0 < n ∧ breakCond atype results (i + n - 1) := by
  induction fuel generalizing i n with
  | zero => omega
  | succ fuel ih =>
    simp only [assignPathsGo] at h
    split at h
    · exact absurd h (by simp)
    · split at h
      · exact absurd h (by simp)
      · split at h
        · exact absurd h (by simp)
        · split at h
          · rename_i hb
            injection h with h
            subst h
            simpa using hb
          · split at h
            · rename_i m hm
              injection h with h
              subst h
              have := ih hm (by omega)
              refine ⟨by omega, ?_⟩
              have harith : i + 1 + m - 1 = i + (m + 1) - 1 := by omega
              rw [harith] at this
              exact this.2
            · exact absurd h (by simp)

/-- C2: `Assignment.assign_paths` executes at most `ITERATION_FLAG` outer
iterations; it exits the loop after any iteration whose capacity gap
`100·(paths_found − passengers_arrived)/paths_found` is below `0.001` or
when the assignment type is stochastic (no non-final executed iteration
satisfies the exit test, and an exit before `ITERATION_FLAG` happens only
at an iteration satisfying it); consequently in stochastic mode exactly
one iteration is executed. -/
theorem claim_c2_assign_paths_iterations (atype : AsgnType) (flag : ℕ)
    (results : ℕ → ℕ × ℕ) (n : ℕ) :
    (assign_paths atype true flag results = .ok n →
      n ≤ flag ∧
      (∀ j, j + 1 < n → ¬ breakCond atype results (1 + j)) ∧
      (n < flag → 0 < n ∧ breakCond atype results n)) ∧
    (1 ≤ flag → (results 1).1 ≠ 0 →
      assign_paths .sto true flag results = .ok 1) := by
  constructor
  · intro h
    refine ⟨assignPathsGo_le h, assignPathsGo_no_early_break h, ?_⟩
    intro hlt
    have := assignPathsGo_break_at_exit h hlt
    refine ⟨this.1, ?_⟩
    have harith : 1 + n - 1 = n := by omega
    rw [harith] at this
    exact this.2
  · intro hflag hne
    match flag, hflag with
    | f + 1, _ =>
      have hb : breakCond .sto results 1 := Or.inr rfl
      simp only [assign_paths, assignPathsGo]
      rw [if_neg (by simp), if_neg (by simp), if_neg (by simpa using hne),
        if_pos hb]

theorem claim_c2_assign_paths_iterations_witness :
    ((1:ℕ) ≤ 1 ∧
      (∀ j, j + 1 < 1 → ¬ breakCond .det (fun _ => (1, 1)) (1 + j)) ∧
      ((1:ℕ) < 1 → 0 < 1 ∧ breakCond .det (fun _ => (1, 1)) 1)) ∧
    assign_paths .sto true 1 (fun _ => (1, 1)) = .ok 1 := by
  have hb : breakCond .det (fun _ => (1, 1)) 1 := by
    left
    unfold capacityGap
    norm_num
  have hok : assign_paths .det true 1 (fun _ => (1, 1)) = .ok 1 := by
    simp only [assign_paths, assignPathsGo]
    rw [if_neg (by simp), if_neg (by simp), if_neg (by simp), if_pos hb]
  exact ⟨(claim_c2_assign_paths_iterations .det 1 (fun _ => (1, 1)) 1).1 hok,
    (claim_c2_assign_paths_iterations .det 1 (fun _ => (1, 1)) 1).2
      (by decide) (by decide)⟩

/-- C8: if an iteration of `assign_paths` assigns zero paths, the
capacity-gap computation `100.0*num_bumped_passengers/num_paths_assigned`
divides by zero and the run aborts with an uncaught `ZeroDivisionError`
instead of terminating normally (shown here for the first iteration, which
is always reached when `ITERATION_FLAG ≥ 1`). -/
theorem claim_c8_zero_paths_division (atype : AsgnType) (flag : ℕ)
    (results : ℕ → ℕ × ℕ) (hty : atype ≠ .simOnly) (hflag : 1 ≤ flag)
    (hzero : (results 1).1 = 0) :
    assign_paths atype true flag results = .error "ZeroDivisionError" := by
  match flag, hflag with
  | f + 1, _ =>
    simp only [assign_paths, assignPathsGo]
    rw [if_neg hty, if_neg (by simp), if_pos hzero]

theorem claim_c8_zero_paths_division_witness :
    assign_paths .det true 1 (fun _ => (0, 5)) = .error "ZeroDivisionError" :=
  claim_c8_zero_paths_division .det 1 (fun _ => (0, 5)) (by decide) (by decide)
    rfl

/-- C9: `Assignment.choose_state` never reaches its
`This shouldn't happen` exception: for every non-empty cumulative
probability list whose final cumulative weight is positive, the drawn
integer reduced modulo that weight is strictly below the last entry's
cumulative weight, so the scan returns some state. -/
theorem claim_c9_choose_state_total {α : Type} (randomNum : ℤ)
    (probStateList : List (ℤ × α)) (lastPair : ℤ × α)
    (hlast : probStateList.getLast? = some lastPair) (hpos : 0 < lastPair.1) :
    ∃ a, choose_state randomNum probStateList = .ok a := by
  unfold choose_state
  simp only [hlast]
  rw [if_neg (by omega)]
  have hmem : lastPair ∈ probStateList := by
    have h1 : lastPair ∈ probStateList.getLast? := by
      simp [Option.mem_def, hlast]
    rcases List.mem_getLast?_eq_getLast h1 with ⟨hne, heq⟩
    exact heq ▸ List.getLast_mem hne
  have hlt : randomNum % lastPair.1 < lastPair.1 :=
    Int.emod_lt_of_pos randomNum hpos
  have hfind : (probStateList.find? fun p =>
      decide (randomNum % lastPair.1 < p.1)).isSome := by
    rw [List.find?_isSome]
    exact ⟨lastPair, hmem, by simpa using hlt⟩
  match hf : probStateList.find? fun p =>
      decide (randomNum % lastPair.1 < p.1) with
  | some q => exact ⟨q.2, by rw [hf]⟩
  | none => rw [hf] at hfind; simp at hfind

theorem claim_c9_choose_state_total_witness :
    ∃ a, choose_state 7 [((3:ℤ), (0:ℕ))] = .ok a :=
  claim_c9_choose_state_total 7 [((3:ℤ), (0:ℕ))] (3, 0) rfl (by decide)

/-! ## `Assignment.simulate` (lines 954-1188)

The event-driven simulator.  Clock times are rationals (minutes).  A
passenger's chosen itinerary `path.states` is an insertion-ordered list of
`(stop_or_taz_id, state)` pairs; `path.states.items()[path_idx]` is
positional indexing with Python semantics (negative indices count from the
end). -/

/-- One entry of `path.states`: the list
`[label, departure/arrival, mode, successor/predecessor, linktime]`. -/
structure PathState where
  label : ℚ
  deparr : ℚ
  mode : Mode
  succpred : ℕ
  linktime : ℚ
deriving DecidableEq

/-- Static passenger data: the chosen itinerary and direction, plus the
`path.goes_somewhere()` flag of the `Path` collaborator. -/
structure PaxInfo where
  path : List (StopId × PathState)
  outbound : Bool
  goesSomewhere : Bool

/-- `Passenger.STATUS_*` (without `INITIAL`, which is represented by an
absent `passenger_id_to_state` entry). -/
inductive PaxStatus where
  | walking : PaxStatus
  | waiting : PaxStatus
  | onBoard : PaxStatus
  | arrived : PaxStatus
  | bumped : PaxStatus
deriving DecidableEq

/-- A vehicle event `(trip_id, stop_id, event_time, event_type)`. -/
structure Event where
  trip : TripId
  stop : StopId
  time : ℚ
  isArrival : Bool

/-- Python list indexing `l[i]`: nonnegative indices from the front,
negative indices from the end, `none` when out of range. -/
def pyGet {α : Type} (l : List α) (i : ℤ) : Option α :=
  if 0 ≤ i then l.get? i.toNat
  else if (-i).toNat ≤ l.length then l.get? (l.length - (-i).toNat)
  else none

/-- Pointwise update of a dictionary embedded as a function. -/
def updFn {α β : Type} [DecidableEq α] (f : α → β) (k : α) (v : β) : α → β :=
  fun x => if x = k then v else f x

/-- The mutable state of one `Assignment.simulate` call.  `bump_log` is a
ghost log recording each `(trip, stop) → arrival` observation fed into
`bump_wait`; it influences nothing. -/
structure SimState where
  trip_pax : TripId → List PaxId
  stop_pax : StopId → List PaxId
  pax_state : PaxId → Option (PaxStatus × ℤ)
  transfer_passengers : List PaxId
  passenger_arrivals : PaxId → List ℚ
  passenger_boards : PaxId → List ℚ
  passenger_alights : PaxId → List ℚ
  passenger_dest_arrivals : PaxId → Option ℚ
  bump_wait : TripId × StopId → Option ℚ
  bump_log : List ((TripId × StopId) × ℚ)
  passengers_arrived : ℕ
  passengers_bumped : ℕ

/-- Body of the alight loop of an `ARRIVAL` event (lines 1027-1049), for
one passenger currently on the event's trip. -/
def alightOne (pax : PaxId → PaxInfo) (e : Event) (s : SimState)
    (pid : PaxId) : SimState :=
  match s.pax_state pid with
  | none => s
  | some (_, idx) =>
    match pyGet (pax pid).path idx with
    | none => s
    | some (stateStop, st) =>
      if (if (pax pid).outbound then st.succpred else stateStop) = e.stop then
        { s with
          pax_state := updFn s.pax_state pid
            (some (.walking, idx + (if (pax pid).outbound then 1 else -1))),
          passenger_alights := updFn s.passenger_alights pid
            (s.passenger_alights pid ++ [e.time]),
          transfer_passengers := s.transfer_passengers ++ [pid],
          trip_pax := updFn s.trip_pax e.trip ((s.trip_pax e.trip).erase pid) }
      else s

/-- An `ARRIVAL` event (lines 1023-1051): iterate the alight loop over a
snapshot of the trip's on-board list. -/
def processArrival (pax : PaxId → PaxInfo) (e : Event) (s : SimState) :
    SimState :=
  (s.trip_pax e.trip).foldl (alightOne pax e) s

/-- A state's mode is walk-class: `[TRANSFER, EGRESS, ACCESS]`
(line 1076). -/
def walkClassMode (m : Mode) : Prop :=
  m = .transfer ∨ m = .egress ∨ m = .access

instance (m : Mode) : Decidable (walkClassMode m) := by
  unfold walkClassMode; infer_instance

/-- The alight time of a walking passenger (lines 1066-1073): access-link
start time at the path's access end, otherwise the last logged alight. -/
def transferAlightTime (alights : List ℚ) (info : PaxInfo) (st : PathState)
    (idx : ℤ) : ℚ :=
  if info.outbound ∧ idx = 0 then st.deparr
  else if ¬info.outbound = true ∧ idx = (info.path.length : ℤ) - 1 then
    st.deparr - st.linktime
  else alights.getLastD 0

/-- Walk time toward the next boarding stop (lines 1076-1083). -/
def transferWalkTime (st : PathState) : ℚ :=
  if walkClassMode st.mode then st.linktime else 0

/-- The next boarding stop (lines 1076-1083). -/
def transferBoardStop (info : PaxInfo) (stateStop : ℕ) (st : PathState) :
    ℕ :=
  if walkClassMode st.mode then
    (if info.outbound then st.succpred else stateStop)
  else (if info.outbound then stateStop else st.succpred)

/-- The passenger's next path index (lines 1076-1083). -/
def transferNewIdx (info : PaxInfo) (st : PathState) (idx : ℤ) : ℤ :=
  if walkClassMode st.mode then idx + (if info.outbound then 1 else -1)
  else idx

/-- Body of the walking-passenger loop of a `DEPARTURE` event
(lines 1056-1107), for one currently walking or transferring passenger. -/
def transferOne (pax : PaxId → PaxInfo) (e : Event) (s : SimState)
    (pid : PaxId) : SimState :=
  match s.pax_state pid with
  | none => s
  | some (_, idx) =>
    match pyGet (pax pid).path idx with
    | none => s
    | some (stateStop, st) =>
      if e.time ≥ transferAlightTime (s.passenger_alights pid) (pax pid) st
          idx + transferWalkTime st then
        if st.mode = .egress then
          { s with
            pax_state := updFn s.pax_state pid
              (some (.arrived, transferNewIdx (pax pid) st idx)),
            passenger_dest_arrivals := updFn s.passenger_dest_arrivals pid
              (some (transferAlightTime (s.passenger_alights pid) (pax pid)
                st idx + transferWalkTime st)),
            passengers_arrived := s.passengers_arrived + 1,
            transfer_passengers := s.transfer_passengers.erase pid }
        else
          { s with
            pax_state := updFn s.pax_state pid
              (some (.waiting, transferNewIdx (pax pid) st idx)),
            stop_pax := updFn s.stop_pax
              (transferBoardStop (pax pid) stateStop st)
              (s.stop_pax (transferBoardStop (pax pid) stateStop st) ++ [pid]),
            passenger_arrivals := updFn s.passenger_arrivals pid
              (s.passenger_arrivals pid ++
                [transferAlightTime (s.passenger_alights pid) (pax pid) st
                  idx + transferWalkTime st]),
            transfer_passengers := s.transfer_passengers.erase pid }
      else s

/-- The `bump_wait` update of lines 1131-1133: overwrite the entry only if
absent or strictly later than this bumped passenger's arrival time. -/
def bumpWaitUpdate (bw : TripId × StopId → Option ℚ) (key : TripId × StopId)
    (arr : ℚ) : TripId × StopId → Option ℚ :=
  match bw key with
  | none => updFn bw key (some arr)
  | some v => if v > arr then updFn bw key (some arr) else bw

/-- Body of the boarding loop of a `DEPARTURE` event (lines 1111-1153),
for one passenger waiting at the event's stop. -/
def boardOne (capacityConstraint : Bool) (capacity : TripId → ℕ)
    (pax : PaxId → PaxInfo) (e : Event) (s : SimState) (pid : PaxId) :
    SimState :=
  match s.pax_state pid with
  | none => s
  | some (_, idx) =>
    match pyGet (pax pid).path idx with
    | none => s
    | some (_, st) =>
      if st.mode ≠ Mode.trip e.trip then s
      else
        if capacityConstraint ∧
            (capacity e.trip : ℤ) - ((s.trip_pax e.trip).length : ℤ) = 0 then
          let arr := (s.passenger_arrivals pid).getLastD 0
          { s with
            pax_state := updFn s.pax_state pid (some (.bumped, -1)),
            bump_wait := bumpWaitUpdate s.bump_wait (e.trip, e.stop) arr,
            bump_log := s.bump_log ++ [((e.trip, e.stop), arr)],
            passengers_bumped := s.passengers_bumped + 1,
            stop_pax := updFn s.stop_pax e.stop
              ((s.stop_pax e.stop).erase pid) }
        else
          { s with
            trip_pax := updFn s.trip_pax e.trip (s.trip_pax e.trip ++ [pid]),
            pax_state := updFn s.pax_state pid (some (.onBoard, idx)),
            passenger_boards := updFn s.passenger_boards pid
              (s.passenger_boards pid ++ [e.time]),
            stop_pax := updFn s.stop_pax e.stop
              ((s.stop_pax e.stop).erase pid) }

/-- A `DEPARTURE` event (lines 1053-1159): first the walking-to-waiting
transitions over a snapshot of `transfer_passengers`, then the boarding
loop over a snapshot of the stop's waiting list. -/
def processDeparture (capacityConstraint : Bool) (capacity : TripId → ℕ)
    (pax : PaxId → PaxInfo) (e : Event) (s : SimState) : SimState :=
  let s1 := s.transfer_passengers.foldl (transferOne pax e) s
  (s1.stop_pax e.stop).foldl (boardOne capacityConstraint capacity pax e) s1

/-- Dispatch one event of the event stream (lines 1020-1161). -/
def simStep (capacityConstraint : Bool) (capacity : TripId → ℕ)
    (pax : PaxId → PaxInfo) (s : SimState) (e : Event) : SimState :=
  if e.isArrival then processArrival pax e s
  else processDeparture capacityConstraint capacity pax e s

/-- Body of the reset loop of lines 979-986 for one passenger. -/
def initOne (pax : PaxId → PaxInfo) (s : SimState) (pid : PaxId) :
    SimState :=
  if (pax pid).goesSomewhere ∧ (pax pid).path ≠ [] then
    { s with
      pax_state := updFn s.pax_state pid
        (some (.walking,
          if (pax pid).outbound then 0
          else ((pax pid).path.length : ℤ) - 1)),
      transfer_passengers := s.transfer_passengers ++ [pid] }
  else s

/-- The reset loop of lines 979-986: passengers with a found path that
goes somewhere start `WALKING` at the access end of their itinerary. -/
def simInit (pax : PaxId → PaxInfo) (paxIds : List PaxId)
    (bw0 : TripId × StopId → Option ℚ) : SimState :=
  paxIds.foldl (initOne pax)
    { trip_pax := fun _ => [], stop_pax := fun _ => [],
      pax_state := fun _ => none, transfer_passengers := [],
      passenger_arrivals := fun _ => [], passenger_boards := fun _ => [],
      passenger_alights := fun _ => [],
      passenger_dest_arrivals := fun _ => none,
      bump_wait := bw0, bump_log := [],
      passengers_arrived := 0, passengers_bumped := 0 }

/-- `Assignment.simulate`: fold the event stream over the initial state.
`bw0` is the `Assignment.bump_wait` table left over from earlier
iterations. -/
def simulate (capacityConstraint : Bool) (capacity : TripId → ℕ)
    (pax : PaxId → PaxInfo) (paxIds : List PaxId) (events : List Event)
    (bw0 : TripId × StopId → Option ℚ) : SimState :=
  events.foldl (simStep capacityConstraint capacity pax)
    (simInit pax paxIds bw0)

/-- Running minimum of a pre-existing optional entry and a list of
observed times. -/
def bwFold (o : Option ℚ) (l : List ℚ) : Option ℚ :=
  l.foldl (fun acc t => some (match acc with | none => t | some v => min v t)) o

/-- The arrival times fed into `bump_wait` under a given key. -/
def obsFor (key : TripId × StopId) (log : List ((TripId × StopId) × ℚ)) :
    List ℚ :=
  (log.filter (fun p => decide (p.1 = key))).map (·.2)

theorem bwFold_append (o : Option ℚ) (l : List ℚ) (t : ℚ) :
    bwFold o (l ++ [t]) =
      some (match bwFold o l with | none => t | some v => min v t) := by
  simp [bwFold, List.foldl_append]

theorem bwFold_le (l : List ℚ) (v0 : ℚ) :
    ∃ v, bwFold (some v0) l = some v ∧ v ≤ v0 := by
  induction l generalizing v0 with
  | nil => exact ⟨v0, rfl, le_refl v0⟩
  | cons t l ih =>
    have hstep : bwFold (some v0) (t :: l) = bwFold (some (min v0 t)) l := rfl
    rcases ih (min v0 t) with ⟨v, hv, hle⟩
    exact ⟨v, hstep ▸ hv, le_trans hle (min_le_left _ _)⟩

theorem obsFor_append_same (key : TripId × StopId)
    (log : List ((TripId × StopId) × ℚ)) (arr : ℚ) :
    obsFor key (log ++ [(key, arr)]) = obsFor key log ++ [arr] := by
  simp [obsFor]

theorem obsFor_append_other (key key' : TripId × StopId)
    (log : List ((TripId × StopId) × ℚ)) (arr : ℚ) (h : key' ≠ key) :
    obsFor key (log ++ [(key', arr)]) = obsFor key log := by
  simp [obsFor, h]

/-- The bump-wait invariant maintained throughout one `simulate` call:
every entry is the running minimum of its pre-existing value and the
observed bumped-passenger arrival times. -/
def BWInvariant (bw0 : TripId × StopId → Option ℚ) (s : SimState) : Prop :=
  ∀ key, s.bump_wait key = bwFold (bw0 key) (obsFor key s.bump_log)

theorem alightOne_bump_frame (pax : PaxId → PaxInfo) (e : Event)
    (s : SimState) (pid : PaxId) :
    (alightOne pax e s pid).bump_wait = s.bump_wait ∧
      (alightOne pax e s pid).bump_log = s.bump_log := by
  unfold alightOne
  split
  · exact ⟨rfl, rfl⟩
  · split
    · exact ⟨rfl, rfl⟩
    · split <;> split <;> exact ⟨rfl, rfl⟩

theorem transferOne_bump_frame (pax : PaxId → PaxInfo) (e : Event)
    (s : SimState) (pid : PaxId) :
    (transferOne pax e s pid).bump_wait = s.bump_wait ∧
      (transferOne pax e s pid).bump_log = s.bump_log := by
  unfold transferOne
  split
  · exact ⟨rfl, rfl⟩
  · split
    · exact ⟨rfl, rfl⟩
    · split
      · split <;> exact ⟨rfl, rfl⟩
      · exact ⟨rfl, rfl⟩

theorem foldl_bump_frame {f : SimState → PaxId → SimState}
    (hf : ∀ s pid, (f s pid).bump_wait = s.bump_wait ∧
      (f s pid).bump_log = s.bump_log) (l : List PaxId) (s : SimState) :
    (l.foldl f s).bump_wait = s.bump_wait ∧
      (l.foldl f s).bump_log = s.bump_log := by
  induction l generalizing s with
  | nil => exact ⟨rfl, rfl⟩
  | cons pid l ih =>
    have h1 := hf s pid
    have h2 := ih (f s pid)
    exact ⟨h1.1 ▸ h2.1, h1.2 ▸ h2.2⟩

theorem bumpWaitUpdate_same (bw : TripId × StopId → Option ℚ)
    (key : TripId × StopId) (arr : ℚ) :
    bumpWaitUpdate bw key arr key =
      some (match bw key with | none => arr | some v => min v arr) := by
  cases hbw : bw key with
  | none => simp [bumpWaitUpdate, hbw, updFn]
  | some v =>
    by_cases hgt : v > arr
    · simp [bumpWaitUpdate, hbw, hgt, updFn, min_eq_right (le_of_lt hgt)]
    · simp [bumpWaitUpdate, hbw, hgt, min_eq_left (le_of_not_lt hgt)]

theorem bumpWaitUpdate_other (bw : TripId × StopId → Option ℚ)
    (key key' : TripId × StopId) (arr : ℚ) (h : key' ≠ key) :
    bumpWaitUpdate bw key arr key' = bw key' := by
  cases hbw : bw key with
  | none => simp [bumpWaitUpdate, hbw, updFn, h]
  | some v =>
    simp only [bumpWaitUpdate, hbw]
    split
    · simp [updFn, h]
    · rfl

theorem boardOne_bwinv (bw0 : TripId × StopId → Option ℚ)
    (capacityConstraint : Bool) (capacity : TripId → ℕ)
    (pax : PaxId → PaxInfo) (e : Event) (s : SimState) (pid : PaxId)
    (h : BWInvariant bw0 s) :
    BWInvariant bw0 (boardOne capacityConstraint capacity pax e s pid) := by
  unfold boardOne
  split
  · exact h
  · split
    · exact h
    · split
      · exact h
      · split
        · rename_i idx stpair hmode hfull
          intro key
          show bumpWaitUpdate s.bump_wait (e.trip, e.stop)
              ((s.passenger_arrivals pid).getLastD 0) key =
            bwFold (bw0 key) (obsFor key (s.bump_log ++
              [((e.trip, e.stop), (s.passenger_arrivals pid).getLastD 0)]))
          by_cases hkey : key = (e.trip, e.stop)
          · subst hkey
            rw [bumpWaitUpdate_same, obsFor_append_same, bwFold_append,
              h (e.trip, e.stop)]
          · rw [bumpWaitUpdate_other s.bump_wait (e.trip, e.stop) key _ hkey,
              obsFor_append_other key (e.trip, e.stop) s.bump_log _
                (Ne.symm hkey)]
            exact h key
        · exact h

theorem foldl_boardOne_bwinv (bw0 : TripId × StopId → Option ℚ)
    (capacityConstraint : Bool) (capacity : TripId → ℕ)
    (pax : PaxId → PaxInfo) (e : Event) (l : List PaxId) (s : SimState)
    (h : BWInvariant bw0 s) :
    BWInvariant bw0 (l.foldl (boardOne capacityConstraint capacity pax e) s) := by
  induction l generalizing s with
  | nil => exact h
  | cons pid l ih =>
    exact ih _ (boardOne_bwinv bw0 capacityConstraint capacity pax e s pid h)

theorem bwinv_of_frame (bw0 : TripId × StopId → Option ℚ) {s s' : SimState}
    (hw : s'.bump_wait = s.bump_wait) (hl : s'.bump_log = s.bump_log)
    (h : BWInvariant bw0 s) : BWInvariant bw0 s' := by
  intro key
  rw [hw, hl]
  exact h key

theorem simStep_bwinv (bw0 : TripId × StopId → Option ℚ)
    (capacityConstraint : Bool) (capacity : TripId → ℕ)
    (pax : PaxId → PaxInfo) (s : SimState) (e : Event)
    (h : BWInvariant bw0 s) :
    BWInvariant bw0 (simStep capacityConstraint capacity pax s e) := by
  unfold simStep
  split
  · have := foldl_bump_frame (alightOne_bump_frame pax e)
      (s.trip_pax e.trip) s
    exact bwinv_of_frame bw0 this.1 this.2 h
  · unfold processDeparture
    have h1 := foldl_bump_frame (transferOne_bump_frame pax e)
      s.transfer_passengers s
    exact foldl_boardOne_bwinv bw0 capacityConstraint capacity pax e _ _
      (bwinv_of_frame bw0 h1.1 h1.2 h)

theorem initOne_frame (pax : PaxId → PaxInfo) (s : SimState) (pid : PaxId) :
    (initOne pax s pid).bump_wait = s.bump_wait ∧
      (initOne pax s pid).bump_log = s.bump_log ∧
      (initOne pax s pid).trip_pax = s.trip_pax := by
  unfold initOne
  split <;> exact ⟨rfl, rfl, rfl⟩

theorem foldl_initOne_frame (pax : PaxId → PaxInfo) (l : List PaxId)
    (s : SimState) :
    (l.foldl (initOne pax) s).bump_wait = s.bump_wait ∧
      (l.foldl (initOne pax) s).bump_log = s.bump_log ∧
      (l.foldl (initOne pax) s).trip_pax = s.trip_pax := by
  induction l generalizing s with
  | nil => exact ⟨rfl, rfl, rfl⟩
  | cons pid l ih =>
    rcases initOne_frame pax s pid with ⟨h1, h2, h3⟩
    rcases ih (initOne pax s pid) with ⟨g1, g2, g3⟩
    exact ⟨h1 ▸ g1, h2 ▸ g2, h3 ▸ g3⟩

theorem simInit_bump_frame (pax : PaxId → PaxInfo) (paxIds : List PaxId)
    (bw0 : TripId × StopId → Option ℚ) :
    (simInit pax paxIds bw0).bump_wait = bw0 ∧
      (simInit pax paxIds bw0).bump_log = [] := by
  rcases foldl_initOne_frame pax paxIds _ with ⟨h1, h2, _⟩
  exact ⟨h1, h2⟩

/-- C1: during a single `Assignment.simulate` call, every bump-wait entry
is monotonically non-increasing (an update overwrites only with a strictly
earlier arrival time), and after the event pass the entry under each
`(trip_id, stop_id)` key equals the minimum over all bumped-passenger
arrival-at-stop times observed for that key together with any smaller
pre-existing value. -/
theorem claim_c1_bump_wait_min (capacityConstraint : Bool)
    (capacity : TripId → ℕ) (pax : PaxId → PaxInfo) (paxIds : List PaxId)
    (events : List Event) (bw0 : TripId × StopId → Option ℚ)
    (key : TripId × StopId) :
    (simulate capacityConstraint capacity pax paxIds events bw0).bump_wait
        key =
      bwFold (bw0 key) (obsFor key
        (simulate capacityConstraint capacity pax paxIds events
          bw0).bump_log) ∧
    ∀ v0 v1, bw0 key = some v0 →
      (simulate capacityConstraint capacity pax paxIds events bw0).bump_wait
          key = some v1 → v1 ≤ v0 := by
  have hinv : BWInvariant bw0
      (simulate capacityConstraint capacity pax paxIds events bw0) := by
    unfold simulate
    have hinit : BWInvariant bw0 (simInit pax paxIds bw0) := by
      intro k
      rcases simInit_bump_frame pax paxIds bw0 with ⟨hw, hl⟩
      rw [hw, hl]
      rfl
    generalize simInit pax paxIds bw0 = s0 at hinit ⊢
    induction events generalizing s0 with
    | nil => exact hinit
    | cons e es ih =>
      exact ih _ (simStep_bwinv bw0 capacityConstraint capacity pax s0 e
        hinit)
  refine ⟨hinv key, ?_⟩
  intro v0 v1 h0 h1
  have := hinv key
  rw [h0] at this
  rcases bwFold_le (obsFor key
      (simulate capacityConstraint capacity pax paxIds events bw0).bump_log)
      v0 with ⟨v, hv, hle⟩
  rw [h1, hv] at this
  injection this with heq
  exact heq ▸ hle

/-- The capacity invariant: no trip carries more passengers than its
vehicle capacity. -/
def CapInv (capacity : TripId → ℕ) (s : SimState) : Prop :=
  ∀ t, (s.trip_pax t).length ≤ capacity t

theorem updFn_erase_le (capacity : TripId → ℕ) (s : SimState)
    (etrip : TripId) (pid : PaxId) (h : CapInv capacity s) (t : TripId) :
    (updFn s.trip_pax etrip ((s.trip_pax etrip).erase pid) t).length ≤
      capacity t := by
  unfold updFn
  split
  · rename_i ht
    subst ht
    exact le_trans (List.Sublist.length_le (List.erase_sublist _ _)) (h t)
  · exact h t

theorem alightOne_capinv (capacity : TripId → ℕ) (pax : PaxId → PaxInfo)
    (e : Event) (s : SimState) (pid : PaxId) (h : CapInv capacity s) :
    CapInv capacity (alightOne pax e s pid) := by
  intro t
  unfold alightOne
  split
  · exact h t
  · split
    · exact h t
    · split <;> split <;>
        first
        | exact updFn_erase_le capacity s e.trip pid h t
        | exact h t

theorem transferOne_trip_pax (pax : PaxId → PaxInfo) (e : Event)
    (s : SimState) (pid : PaxId) :
    (transferOne pax e s pid).trip_pax = s.trip_pax := by
  unfold transferOne
  split
  · rfl
  · split
    · rfl
    · split
      · split <;> rfl
      · rfl

theorem boardOne_capinv (capacity : TripId → ℕ) (pax : PaxId → PaxInfo)
    (e : Event) (s : SimState) (pid : PaxId) (h : CapInv capacity s) :
    CapInv capacity (boardOne true capacity pax e s pid) := by
  unfold boardOne
  split
  · exact h
  · split
    · exact h
    · split
      · exact h
      · split
        · exact h
        · rename_i hnotfull
          intro t
          show (updFn s.trip_pax e.trip (s.trip_pax e.trip ++ [pid])
            t).length ≤ capacity t
          unfold updFn
          split
          · rename_i ht
            subst ht
            have hne : ((capacity e.trip : ℤ) -
                ((s.trip_pax e.trip).length : ℤ)) ≠ 0 := by
              intro hc
              exact hnotfull ⟨rfl, hc⟩
            have := h e.trip
            simp only [List.length_append, List.length_cons,
              List.length_nil]
            omega
          · exact h t

theorem foldl_capinv {α : Type} (capacity : TripId → ℕ)
    {f : SimState → α → SimState}
    (hf : ∀ s a, CapInv capacity s → CapInv capacity (f s a)) :
    ∀ (l : List α) (s : SimState), CapInv capacity s →
      CapInv capacity (l.foldl f s) := by
  intro l
  induction l with
  | nil => exact fun s h => h
  | cons a l ih => exact fun s h => ih (f s a) (hf s a h)

theorem transferOne_capinv (capacity : TripId → ℕ) (pax : PaxId → PaxInfo)
    (e : Event) (s : SimState) (pid : PaxId) (h : CapInv capacity s) :
    CapInv capacity (transferOne pax e s pid) := by
  intro t
  rw [transferOne_trip_pax]
  exact h t

theorem simStep_capinv (capacity : TripId → ℕ) (pax : PaxId → PaxInfo)
    (s : SimState) (e : Event) (h : CapInv capacity s) :
    CapInv capacity (simStep true capacity pax s e) := by
  unfold simStep
  split
  · exact foldl_capinv capacity (alightOne_capinv capacity pax e) _ s h
  · unfold processDeparture
    exact foldl_capinv capacity (boardOne_capinv capacity pax e) _ _
      (foldl_capinv capacity (transferOne_capinv capacity pax e) _ s h)

/-- C3: with `CAPACITY_CONSTRAINT` enabled, at every point of the
simulator's event pass the number of passengers on board any trip never
exceeds that trip's capacity (the invariant holds after any prefix of the
event stream and is preserved by every single alight, walk and boarding
substep); a `WAITING` passenger whose next itinerary state is the
departing trip is bumped exactly when `trip.capacity` minus the on-board
count is zero, and boarded (appended to the on-board list) otherwise. -/
theorem claim_c3_capacity_invariant (capacity : TripId → ℕ)
    (pax : PaxId → PaxInfo) (paxIds : List PaxId)
    (bw0 : TripId × StopId → Option ℚ) :
    (∀ events, CapInv capacity
      (simulate true capacity pax paxIds events bw0)) ∧
    (∀ (s : SimState) (e : Event) (l : List PaxId), CapInv capacity s →
      CapInv capacity (l.foldl (boardOne true capacity pax e) s)) ∧
    (∀ (s : SimState) (e : Event) (l : List PaxId), CapInv capacity s →
      CapInv capacity (l.foldl (alightOne pax e) s)) ∧
    (∀ (s : SimState) (e : Event) (l : List PaxId), CapInv capacity s →
      CapInv capacity (l.foldl (transferOne pax e) s)) ∧
    (∀ s (e : Event) pid status idx stateStop st,
      s.pax_state pid = some (status, idx) →
      pyGet (pax pid).path idx = some (stateStop, st) →
      st.mode = Mode.trip e.trip →
      ((capacity e.trip : ℤ) - ((s.trip_pax e.trip).length : ℤ) = 0 →
        (boardOne true capacity pax e s pid).pax_state pid =
            some (.bumped, -1) ∧
          (boardOne true capacity pax e s pid).trip_pax = s.trip_pax) ∧
      ((capacity e.trip : ℤ) - ((s.trip_pax e.trip).length : ℤ) ≠ 0 →
        (boardOne true capacity pax e s pid).pax_state pid =
            some (.onBoard, idx) ∧
          (boardOne true capacity pax e s pid).trip_pax e.trip =
            s.trip_pax e.trip ++ [pid])) := by
  refine ⟨?_, ?_, ?_, ?_, ?_⟩
  · intro events
    have hinit : CapInv capacity (simInit pax paxIds bw0) := by
      intro t
      rcases foldl_initOne_frame pax paxIds _ with ⟨_, _, h3⟩
      rw [simInit, h3]
      exact Nat.zero_le _
    unfold simulate
    generalize simInit pax paxIds bw0 = s0 at hinit ⊢
    induction events generalizing s0 with
    | nil => exact hinit
    | cons e es ih => exact ih _ (simStep_capinv capacity pax s0 e hinit)
  · exact fun s e l h => foldl_capinv capacity
      (boardOne_capinv capacity pax e) l s h
  · exact fun s e l h => foldl_capinv capacity
      (alightOne_capinv capacity pax e) l s h
  · exact fun s e l h => foldl_capinv capacity
      (transferOne_capinv capacity pax e) l s h
  · intro s e pid status idx stateStop st hps hpg hmode
    constructor
    · intro hfull
      simp only [boardOne, hps, hpg]
      have hcond : True ∧
          ((capacity e.trip : ℤ) - ((s.trip_pax e.trip).length : ℤ) = 0) :=
        ⟨trivial, hfull⟩
      rw [if_neg (by simp [hmode]), if_pos hcond]
      exact ⟨by simp [updFn], rfl⟩
    · intro hnotfull
      simp only [boardOne, hps, hpg]
      rw [if_neg (by simp [hmode]), if_neg (fun hc => hnotfull hc.2)]
      exact ⟨by simp [updFn], by simp [updFn]⟩

theorem claim_c3_capacity_invariant_witness :
    ((boardOne true (fun _ => 0)
        (fun _ => ⟨[(0, ⟨0, 0, Mode.trip 0, 1, 0⟩)], true, true⟩)
        ⟨0, 0, 0, false⟩
        { trip_pax := fun _ => [], stop_pax := fun _ => [0],
          pax_state := fun _ => some (.waiting, 0),
          transfer_passengers := [], passenger_arrivals := fun _ => [0],
          passenger_boards := fun _ => [], passenger_alights := fun _ => [],
          passenger_dest_arrivals := fun _ => none,
          bump_wait := fun _ => none, bump_log := [],
          passengers_arrived := 0, passengers_bumped := 0 }
        0).pax_state 0 = some (.bumped, -1)) ∧
    CapInv (fun _ => 0)
      (simulate true (fun _ => 0)
        (fun _ => ⟨[(0, ⟨0, 0, Mode.trip 0, 1, 0⟩)], true, true⟩) [0] []
        (fun _ => none)) :=
  ⟨(((claim_c3_capacity_invariant (fun _ => 0)
      (fun _ => ⟨[(0, ⟨0, 0, Mode.trip 0, 1, 0⟩)], true, true⟩) [0]
      (fun _ => none)).2.2.2.2
      { trip_pax := fun _ => [], stop_pax := fun _ => [0],
        pax_state := fun _ => some (.waiting, 0),
        transfer_passengers := [], passenger_arrivals := fun _ => [0],
        passenger_boards := fun _ => [], passenger_alights := fun _ => [],
        passenger_dest_arrivals := fun _ => none,
        bump_wait := fun _ => none, bump_log := [],
        passengers_arrived := 0, passengers_bumped := 0 }
      ⟨0, 0, 0, false⟩ 0 .waiting 0 0 ⟨0, 0, Mode.trip 0, 1, 0⟩
      rfl rfl rfl).1 (by decide)).1,
   (claim_c3_capacity_invariant (fun _ => 0)
      (fun _ => ⟨[(0, ⟨0, 0, Mode.trip 0, 1, 0⟩)], true, true⟩) [0]
      (fun _ => none)).1 []⟩

theorem claim_c1_bump_wait_min_witness :
    ((simulate false (fun _ => 0) (fun _ => ⟨[], true, false⟩) [] []
        (fun _ => some 5)).bump_wait (0, 0) =
      bwFold (some 5) (obsFor (0, 0)
        (simulate false (fun _ => 0) (fun _ => ⟨[], true, false⟩) [] []
          (fun _ => some 5)).bump_log)) ∧
    (5 : ℚ) ≤ 5 :=
  ⟨(claim_c1_bump_wait_min false (fun _ => 0) (fun _ => ⟨[], true, false⟩)
      [] [] (fun _ => some 5) (0, 0)).1,
   (claim_c1_bump_wait_min false (fun _ => 0) (fun _ => ⟨[], true, false⟩)
      [] [] (fun _ => some 5) (0, 0)).2 5 5 rfl rfl⟩

/-! ## `Assignment.find_trip_based_shortest_path` (lines 195-445)

The deterministic label-setting search.  Only the labeling loop
(lines 218-375) is embedded; the terminal-TAZ scan and path
reconstruction that follow it are outside the claims considered here.
The Schedule Store collaborator (`FT.stops`, `FT.trips`, `FT.tazs`) is a
read-only record of lookup functions; `stopIds` / `tripIds` list the
store's finite key sets. -/

/-- `Assignment.PATH_TIME_WINDOW` (30 minutes). -/
def PATH_TIME_WINDOW : ℚ := 30

/-- `Assignment.BUMP_BUFFER` (5 minutes). -/
def BUMP_BUFFER : ℚ := 5

/-- `MAX_TIME = datetime.timedelta(minutes = 999.999)` (line 220). -/
def MAX_TIME : ℚ := 999999 / 1000

/-- The read-only schedule store.  `tripStops t` lists
`(stop_id, arrival_time, departure_time)` rows in sequence order;
the two `within` queries embed `Stop.get_trips_arriving_within_time` and
`Stop.get_trips_departing_within_time`, returning
`(trip_id, seq, arrival_or_departure_time)` tuples. -/
structure DetNet where
  stopIds : List StopId
  tripIds : List TripId
  transfers : StopId → List (StopId × ℚ)
  tripStops : TripId → List (StopId × ℚ × ℚ)
  tripsArrivingWithin : StopId → ℚ → List (TripId × ℕ × ℚ)
  tripsDepartingWithin : StopId → ℚ → List (TripId × ℕ × ℚ)

/-- The labeling loop's mutable state: `stop_states`, the priority queue,
and the `stop_done` / `trips_used` guard sets (lines 218-222). -/
structure DetSearchState where
  stop_states : StopId → Option PathState
  stop_queue : List (ℚ × StopId)
  stop_done : List StopId
  trips_used : List TripId

/-- Lexicographic order on `(label, stop_id)` queue entries, as used by
`Queue.PriorityQueue` on Python tuples. -/
def pqLt (a b : ℚ × ℕ) : Prop := a.1 < b.1 ∨ (a.1 = b.1 ∧ a.2 < b.2)

instance (a b : ℚ × ℕ) : Decidable (pqLt a b) := by
  unfold pqLt; infer_instance

/-- The least entry of the priority queue. -/
def pqMin (l : List (ℚ × ℕ)) : Option (ℚ × ℕ) :=
  l.foldl
    (fun acc x => match acc with
      | none => some x
      | some m => if pqLt x m then some x else some m) none

/-- `stop_queue.get()`: remove and return the least entry. -/
def popMin (l : List (ℚ × ℕ)) : Option ((ℚ × ℕ) × List (ℚ × ℕ)) :=
  match pqMin l with
  | none => none
  | some m => some (m, l.erase m)

/-- The stored label of a stop, `MAX_TIME` when the stop has no state yet
(lines 283-285). -/
def stateLabel (o : Option PathState) : ℚ :=
  match o with
  | none => MAX_TIME
  | some st => st.label

/-- The guard of the transfer-relaxation block (lines 256-260): the
popped stop's mode must not be `EGRESS`, `TRANSFER` or `ACCESS`. -/
def detTransferAllowed (m : Mode) : Bool :=
  decide (m ∉ [Mode.egress, Mode.transfer, Mode.access])

/-- The candidate `(new_label, deparr_time)` of a transfer-edge
relaxation (lines 264-281), after the outbound-only bump-wait
adjustment; `none` embeds the `continue` of line 277. -/
def detTransferCandidate (outbound : Bool)
    (bw : Mode → StopId → Option ℚ) (u : StopId) (ust : PathState)
    (lbl : ℚ) (xfer : StopId × ℚ) : Option (ℚ × ℚ) :=
  match (if outbound then bw ust.mode u else none) with
  | none => some (lbl + xfer.2,
      ust.deparr - xfer.2 * (if outbound then 1 else -1))
  | some latest =>
    if ust.deparr - xfer.2 * (if outbound then 1 else -1) -
        PATH_TIME_WINDOW > latest then none
    else some (lbl + xfer.2 + (ust.deparr - latest) + BUMP_BUFFER,
      latest - xfer.2 - BUMP_BUFFER)

/-- One transfer-edge relaxation (lines 262-294). -/
def detTransferRelaxOne (outbound : Bool) (bw : Mode → StopId → Option ℚ)
    (u : StopId) (ust : PathState) (lbl : ℚ) (s : DetSearchState)
    (xfer : StopId × ℚ) : DetSearchState :=
  match detTransferCandidate outbound bw u ust lbl xfer with
  | none => s
  | some (newLabel, deparrTime) =>
    if newLabel < stateLabel (s.stop_states xfer.1) then
      { s with
        stop_states := updFn s.stop_states xfer.1
          (some ⟨newLabel, deparrTime, .transfer, u, xfer.2⟩),
        stop_queue := s.stop_queue ++ [(newLabel, xfer.1)] }
    else s

/-- The guarded transfer-relaxation block (lines 256-294). -/
def detTransferBlock (net : DetNet) (outbound : Bool)
    (bw : Mode → StopId → Option ℚ) (u : StopId) (ust : PathState)
    (lbl : ℚ) (s : DetSearchState) : DetSearchState :=
  if detTransferAllowed ust.mode then
    (net.transfers u).foldl (detTransferRelaxOne outbound bw u ust lbl) s
  else s

/-- `trip_seq_list` (lines 342-345): stop sequence numbers before the
boarding position for outbound (`range(seq-1, 0, -1)`), after it for
inbound (`range(seq+1, number_of_stops+1)`). -/
def detSeqList (outbound : Bool) (seq n : ℕ) : List ℕ :=
  if outbound then ((List.range (seq - 1)).map (· + 1)).reverse
  else (List.range (n - seq)).map (· + seq + 1)

/-- The board/alight time at a candidate stop row: scheduled departure
for outbound, scheduled arrival for inbound (lines 354-356). -/
def detTripDeparr (outbound : Bool) (row : StopId × ℚ × ℚ) : ℚ :=
  if outbound then row.2.2 else row.2.1

/-- `in_vehicle_time + wait_time`, the link time of a trip relaxation
(lines 357-358). -/
def detTripLinkTime (outbound : Bool) (arrdep waitTime : ℚ)
    (row : StopId × ℚ × ℚ) : ℚ :=
  (arrdep - detTripDeparr outbound row) * (if outbound then 1 else -1) +
    waitTime

/-- One boarding/alighting-stop relaxation inside a trip expansion
(lines 348-372). -/
def detTripRelaxOne (outbound : Bool) (u : StopId) (tripId : TripId)
    (arrdep : ℚ) (waitTime : ℚ) (lbl : ℚ)
    (tripStopRows : List (StopId × ℚ × ℚ)) (s : DetSearchState)
    (seqNum : ℕ) : DetSearchState :=
  match tripStopRows.get? (seqNum - 1) with
  | none => s
  | some row =>
    if lbl + detTripLinkTime outbound arrdep waitTime row <
        stateLabel (s.stop_states row.1) then
      { s with
        stop_states := updFn s.stop_states row.1
          (some ⟨lbl + detTripLinkTime outbound arrdep waitTime row,
            detTripDeparr outbound row, .trip tripId, u,
            detTripLinkTime outbound arrdep waitTime row⟩),
        stop_queue := s.stop_queue ++
          [(lbl + detTripLinkTime outbound arrdep waitTime row, row.1)] }
    else s

/-- The bump-wait check of lines 317-340: the candidate trip is skipped
when the bump-wait table holds an entry under `(current mode, stop)` for
outbound or `(trip_id, stop)` for inbound, the would-be arrival plus a
0.01-minute grace is at or after it, and the current mode is not the
candidate trip itself. -/
def detBumpSkip (outbound : Bool) (bw : Mode → StopId → Option ℚ)
    (u : StopId) (ust : PathState) (cand : TripId × ℕ × ℚ) : Bool :=
  match bw (if outbound then ust.mode else Mode.trip cand.1) u with
  | some latest =>
    decide ((if outbound then cand.2.2 else ust.deparr) + 1/100 ≥ latest) &&
      decide (ust.mode ≠ Mode.trip cand.1)
  | none => false

/-- Expansion of one candidate trip `(trip_id, seq, arrdep_time)` at the
popped stop (lines 308-372): skip trips already used, apply the bump-wait
check, then mark the trip used and relax its other stops. -/
def detProcessTrip (net : DetNet) (outbound : Bool)
    (bw : Mode → StopId → Option ℚ) (u : StopId) (ust : PathState)
    (lbl : ℚ) (s : DetSearchState) (cand : TripId × ℕ × ℚ) :
    DetSearchState :=
  if cand.1 ∈ s.trips_used then s
  else if detBumpSkip outbound bw u ust cand then s
  else
    (detSeqList outbound cand.2.1 (net.tripStops cand.1).length).foldl
      (detTripRelaxOne outbound u cand.1 cand.2.2
        ((ust.deparr - cand.2.2) * (if outbound then 1 else -1)) lbl
        (net.tripStops cand.1))
      { s with trips_used := cand.1 :: s.trips_used }

/-- Processing of a popped `(label, stop)` entry (lines 245-375): skip
already-processed stops, otherwise mark the stop done and relax its
transfer edges and candidate trips. -/
def detStepProcess (net : DetNet) (outbound : Bool)
    (bw : Mode → StopId → Option ℚ) (s : DetSearchState) (lbl : ℚ)
    (u : StopId) (rest : List (ℚ × ℕ)) : DetSearchState :=
  if u ∈ s.stop_done then { s with stop_queue := rest }
  else
    match s.stop_states u with
    | none => { s with stop_queue := rest, stop_done := u :: s.stop_done }
    | some ust =>
      (if outbound then net.tripsArrivingWithin u ust.deparr
        else net.tripsDepartingWithin u ust.deparr).foldl
        (detProcessTrip net outbound bw u ust lbl)
        (detTransferBlock net outbound bw u ust lbl
          { s with stop_queue := rest, stop_done := u :: s.stop_done })

/-- One iteration of the labeling loop (lines 242-375): pop the least
queue entry and process it. -/
def detStep (net : DetNet) (outbound : Bool)
    (bw : Mode → StopId → Option ℚ) (s : DetSearchState) :
    DetSearchState :=
  match popMin s.stop_queue with
  | none => s
  | some ((lbl, u), rest) => detStepProcess net outbound bw s lbl u rest

/-- The seed states from the anchor TAZ's access links (lines 224-238). -/
def detInit (outbound : Bool) (startTaz : ℕ)
    (accessLinks : List (StopId × ℚ)) (preferredTime : ℚ) :
    DetSearchState :=
  accessLinks.foldl
    (fun s al =>
      { s with
        stop_states := updFn s.stop_states al.1
          (some ⟨al.2,
            preferredTime - al.2 * (if outbound then 1 else -1),
            (if outbound then Mode.egress else Mode.access), startTaz,
            al.2⟩),
        stop_queue := s.stop_queue ++ [(al.2, al.1)] })
    ⟨fun _ => none, [], [], []⟩

/-- The labeling loop `while not stop_queue.empty()` with explicit
fuel. -/
def detRun (net : DetNet) (outbound : Bool)
    (bw : Mode → StopId → Option ℚ) : ℕ → DetSearchState → DetSearchState
  | 0, s => s
  | fuel + 1, s =>
    if s.stop_queue.isEmpty then s
    else detRun net outbound bw fuel (detStep net outbound bw s)

/-- The trips-used invariant of the deterministic search: any stored
state whose mode is a trip names a trip already in `trips_used` (trip
states are written only while the trip is being expanded, which first
adds it to `trips_used`). -/
def ModeInv (s : DetSearchState) : Prop :=
  ∀ v st t, s.stop_states v = some st → st.mode = Mode.trip t →
    t ∈ s.trips_used

theorem detTransferRelaxOne_modeInv (outbound : Bool)
    (bw : Mode → StopId → Option ℚ) (u : StopId) (ust : PathState)
    (lbl : ℚ) (s : DetSearchState) (xfer : StopId × ℚ) (h : ModeInv s) :
    ModeInv (detTransferRelaxOne outbound bw u ust lbl s xfer) ∧
      (detTransferRelaxOne outbound bw u ust lbl s xfer).trips_used =
        s.trips_used := by
  unfold detTransferRelaxOne
  split
  · exact ⟨h, rfl⟩
  · split
    · refine ⟨?_, rfl⟩
      intro v st t hv hmode
      revert hv
      show updFn s.stop_states xfer.1 _ v = some st → _
      unfold updFn
      split
      · intro hv
        injection hv with hv
        rw [← hv] at hmode
        exact absurd hmode (by simp)
      · intro hv
        exact h v st t hv hmode
    · exact ⟨h, rfl⟩

theorem foldl_detTransferRelaxOne_modeInv (outbound : Bool)
    (bw : Mode → StopId → Option ℚ) (u : StopId) (ust : PathState)
    (lbl : ℚ) (l : List (StopId × ℚ)) (s : DetSearchState) (h : ModeInv s) :
    ModeInv (l.foldl (detTransferRelaxOne outbound bw u ust lbl) s) ∧
      (l.foldl (detTransferRelaxOne outbound bw u ust lbl) s).trips_used =
        s.trips_used := by
  induction l generalizing s with
  | nil => exact ⟨h, rfl⟩
  | cons x l ih =>
    rcases detTransferRelaxOne_modeInv outbound bw u ust lbl s x h with
      ⟨h1, h2⟩
    rcases ih _ h1 with ⟨g1, g2⟩
    exact ⟨g1, h2 ▸ g2⟩

theorem detTransferBlock_modeInv (net : DetNet) (outbound : Bool)
    (bw : Mode → StopId → Option ℚ) (u : StopId) (ust : PathState)
    (lbl : ℚ) (s : DetSearchState) (h : ModeInv s) :
    ModeInv (detTransferBlock net outbound bw u ust lbl s) ∧
      (detTransferBlock net outbound bw u ust lbl s).trips_used =
        s.trips_used := by
  unfold detTransferBlock
  split
  · exact foldl_detTransferRelaxOne_modeInv outbound bw u ust lbl
      (net.transfers u) s h
  · exact ⟨h, rfl⟩

theorem detTripRelaxOne_modeInv (outbound : Bool) (u : StopId)
    (tripId : TripId) (arrdep waitTime lbl : ℚ)
    (tripStopRows : List (StopId × ℚ × ℚ)) (s : DetSearchState)
    (seqNum : ℕ) (h : ModeInv s) (hmem : tripId ∈ s.trips_used) :
    ModeInv (detTripRelaxOne outbound u tripId arrdep waitTime lbl
        tripStopRows s seqNum) ∧
      (detTripRelaxOne outbound u tripId arrdep waitTime lbl tripStopRows
        s seqNum).trips_used = s.trips_used := by
  unfold detTripRelaxOne
  split
  · exact ⟨h, rfl⟩
  · split
    · refine ⟨?_, rfl⟩
      intro v st t hv hmode
      revert hv
      show updFn s.stop_states _ _ v = some st → _
      unfold updFn
      split
      · intro hv
        injection hv with hv
        rw [← hv] at hmode
        injection hmode with hmode
        exact hmode ▸ hmem
      · intro hv
        exact h v st t hv hmode
    · exact ⟨h, rfl⟩

theorem foldl_detTripRelaxOne_modeInv (outbound : Bool) (u : StopId)
    (tripId : TripId) (arrdep waitTime lbl : ℚ)
    (tripStopRows : List (StopId × ℚ × ℚ)) (l : List ℕ)
    (s : DetSearchState) (h : ModeInv s) (hmem : tripId ∈ s.trips_used) :
    ModeInv (l.foldl (detTripRelaxOne outbound u tripId arrdep waitTime
        lbl tripStopRows) s) ∧
      (l.foldl (detTripRelaxOne outbound u tripId arrdep waitTime lbl
        tripStopRows) s).trips_used = s.trips_used := by
  induction l generalizing s with
  | nil => exact ⟨h, rfl⟩
  | cons x l ih =>
    rcases detTripRelaxOne_modeInv outbound u tripId arrdep waitTime lbl
      tripStopRows s x h hmem with ⟨h1, h2⟩
    rcases ih _ h1 (h2 ▸ hmem) with ⟨g1, g2⟩
    exact ⟨g1, h2 ▸ g2⟩

theorem detProcessTrip_modeInv (net : DetNet) (outbound : Bool)
    (bw : Mode → StopId → Option ℚ) (u : StopId) (ust : PathState)
    (lbl : ℚ) (s : DetSearchState) (cand : TripId × ℕ × ℚ)
    (h : ModeInv s) :
    ModeInv (detProcessTrip net outbound bw u ust lbl s cand) ∧
      s.trips_used ⊆
        (detProcessTrip net outbound bw u ust lbl s cand).trips_used := by
  unfold detProcessTrip
  split
  · exact ⟨h, fun _ ht => ht⟩
  · split
    · exact ⟨h, fun _ ht => ht⟩
    · have h1 : ModeInv { s with trips_used := cand.1 :: s.trips_used } := by
        intro v st t hv hmode
        exact List.mem_cons_of_mem _ (h v st t hv hmode)
      rcases foldl_detTripRelaxOne_modeInv outbound u cand.1 cand.2.2 _
        lbl (net.tripStops cand.1) _ _ h1 (List.mem_cons_self _ _) with
        ⟨g1, g2⟩
      refine ⟨g1, ?_⟩
      rw [g2]
      exact fun t ht => List.mem_cons_of_mem _ ht

theorem foldl_detProcessTrip_modeInv (net : DetNet) (outbound : Bool)
    (bw : Mode → StopId → Option ℚ) (u : StopId) (ust : PathState)
    (lbl : ℚ) (l : List (TripId × ℕ × ℚ)) (s : DetSearchState)
    (h : ModeInv s) :
    ModeInv (l.foldl (detProcessTrip net outbound bw u ust lbl) s) := by
  induction l generalizing s with
  | nil => exact h
  | cons c l ih =>
    exact ih _ (detProcessTrip_modeInv net outbound bw u ust lbl s c h).1

theorem detStep_modeInv (net : DetNet) (outbound : Bool)
    (bw : Mode → StopId → Option ℚ) (s : DetSearchState) (h : ModeInv s) :
    ModeInv (detStep net outbound bw s) := by
  have hproc : ∀ lbl u rest,
      ModeInv (detStepProcess net outbound bw s lbl u rest) := by
    intro lbl u rest
    unfold detStepProcess
    split
    · exact fun v st t hv hm => h v st t hv hm
    · split
      · exact fun v st t hv hm => h v st t hv hm
      · exact foldl_detProcessTrip_modeInv net outbound bw u _ lbl _ _
          ((detTransferBlock_modeInv net outbound bw u _ lbl
            { s with stop_queue := rest, stop_done := u :: s.stop_done }
            (fun v st t hv hm => h v st t hv hm)).1)
  unfold detStep
  cases hpop : popMin s.stop_queue with
  | none => exact h
  | some p => exact hproc p.1.1 p.1.2 p.2

theorem detInit_modeInv (outbound : Bool) (startTaz : ℕ)
    (accessLinks : List (StopId × ℚ)) (preferredTime : ℚ) :
    ModeInv (detInit outbound startTaz accessLinks preferredTime) := by
  unfold detInit
  have : ∀ (l : List (StopId × ℚ)) (s : DetSearchState), ModeInv s →
      ModeInv (l.foldl (fun s al =>
        { s with
          stop_states := updFn s.stop_states al.1
            (some ⟨al.2,
              preferredTime - al.2 * (if outbound then 1 else -1),
              (if outbound then Mode.egress else Mode.access), startTaz,
              al.2⟩),
          stop_queue := s.stop_queue ++ [(al.2, al.1)] }) s) := by
    intro l
    induction l with
    | nil => exact fun s h => h
    | cons al l ih =>
      intro s h
      refine ih _ ?_
      intro v st t hv hmode
      revert hv
      show updFn s.stop_states al.1 _ v = some st → _
      unfold updFn
      split
      · intro hv
        injection hv with hv
        rw [← hv] at hmode
        simp only at hmode
        revert hmode
        split <;> (intro hmode; exact absurd hmode (by simp))
      · intro hv
        exact h v st t hv hmode
  refine this accessLinks _ ?_
  intro v st t hv
  exact absurd hv (by simp)

theorem detRun_modeInv (net : DetNet) (outbound : Bool)
    (bw : Mode → StopId → Option ℚ) (fuel : ℕ) (s : DetSearchState)
    (h : ModeInv s) : ModeInv (detRun net outbound bw fuel s) := by
  induction fuel generalizing s with
  | zero => exact h
  | succ fuel ih =>
    unfold detRun
    split
    · exact h
    · exact ih _ (detStep_modeInv net outbound bw s h)

/-- C5: in the deterministic search's trip relaxation, whenever the
bump-wait table holds an entry under `(current mode, stop)` for outbound
(resp. `(trip_id, stop)` for inbound) and the would-be arrival plus the
0.01-minute grace is at or after the recorded time, the candidate trip is
discarded and produces no relaxation.  The first two conjuncts establish
the `trips_used` invariant that discharges the extra
`current mode ≠ trip_id` conjunct of line 338: it holds for every state
reachable by the labeling loop and is preserved by every candidate trip
expansion; the third conjunct is the discard itself. -/
theorem claim_c5_det_bump_wait_discard :
    (∀ (net : DetNet) (outbound : Bool) (bw : Mode → StopId → Option ℚ)
      (startTaz : ℕ) (accessLinks : List (StopId × ℚ))
      (preferredTime : ℚ) (fuel : ℕ),
      ModeInv (detRun net outbound bw fuel
        (detInit outbound startTaz accessLinks preferredTime))) ∧
    (∀ (net : DetNet) (outbound : Bool) (bw : Mode → StopId → Option ℚ)
      (u : StopId) (ust : PathState) (lbl : ℚ) (s : DetSearchState)
      (cand : TripId × ℕ × ℚ), ModeInv s →
      ModeInv (detProcessTrip net outbound bw u ust lbl s cand) ∧
        s.trips_used ⊆
          (detProcessTrip net outbound bw u ust lbl s cand).trips_used) ∧
    (∀ (net : DetNet) (outbound : Bool) (bw : Mode → StopId → Option ℚ)
      (u : StopId) (ust : PathState) (lbl : ℚ) (s : DetSearchState)
      (cand : TripId × ℕ × ℚ) (latest : ℚ),
      (∀ t, ust.mode = Mode.trip t → t ∈ s.trips_used) →
      bw (if outbound then ust.mode else Mode.trip cand.1) u =
        some latest →
      (if outbound then cand.2.2 else ust.deparr) + 1/100 ≥ latest →
      detProcessTrip net outbound bw u ust lbl s cand = s) := by
  refine ⟨?_, ?_, ?_⟩
  · intro net outbound bw startTaz accessLinks preferredTime fuel
    exact detRun_modeInv net outbound bw fuel _
      (detInit_modeInv outbound startTaz accessLinks preferredTime)
  · intro net outbound bw u ust lbl s cand h
    exact detProcessTrip_modeInv net outbound bw u ust lbl s cand h
  · intro net outbound bw u ust lbl s cand latest hmode hbw harr
    by_cases hmem : cand.1 ∈ s.trips_used
    · unfold detProcessTrip
      rw [if_pos hmem]
    · have hskip : detBumpSkip outbound bw u ust cand = true := by
        unfold detBumpSkip
        rw [hbw]
        have hne : ust.mode ≠ Mode.trip cand.1 := by
          intro he
          exact hmem (hmode cand.1 he)
        simp only [Bool.and_eq_true, decide_eq_true_eq]
        exact ⟨harr, hne⟩
      unfold detProcessTrip
      rw [if_neg hmem, if_pos hskip]

theorem claim_c5_det_bump_wait_discard_witness :
    detProcessTrip ⟨[], [], fun _ => [], fun _ => [], fun _ _ => [],
        fun _ _ => []⟩ true (fun _ _ => some 0) 0 ⟨0, 0, Mode.egress, 0, 0⟩
        0 ⟨fun _ => none, [], [], []⟩ (7, 1, 10) =
      ⟨fun _ => none, [], [], []⟩ :=
  claim_c5_det_bump_wait_discard.2.2 ⟨[], [], fun _ => [], fun _ => [],
    fun _ _ => [], fun _ _ => []⟩ true (fun _ _ => some 0) 0
    ⟨0, 0, Mode.egress, 0, 0⟩ 0 ⟨fun _ => none, [], [], []⟩ (7, 1, 10) 0
    (fun t ht => absurd ht (by simp)) rfl (by norm_num)

/-! ### Termination of the deterministic labeling loop -/

/-- Sum of `f` over the members of `univ` not yet in `excl`. -/
def sumF (f : ℕ → ℕ) (univ excl : List ℕ) : ℕ :=
  ((univ.filter (fun x => decide (x ∉ excl))).map f).sum

theorem sumF_cons (f : ℕ → ℕ) (v : ℕ) (univ excl : List ℕ) :
    sumF f (v :: univ) excl =
      (if v ∈ excl then 0 else f v) + sumF f univ excl := by
  by_cases h : v ∈ excl <;> simp [sumF, List.filter_cons, h]

theorem sumF_mono (f : ℕ → ℕ) (univ : List ℕ) (x : ℕ) (excl : List ℕ) :
    sumF f univ (x :: excl) ≤ sumF f univ excl := by
  induction univ with
  | nil => exact le_refl 0
  | cons v univ ih =>
    rw [sumF_cons, sumF_cons]
    refine Nat.add_le_add ?_ ih
    by_cases h : v ∈ excl
    · simp [h, List.mem_cons_of_mem x h]
    · split
      · exact Nat.zero_le _
      · exact le_refl _

theorem sumF_remove (f : ℕ → ℕ) (univ : List ℕ) (excl : List ℕ) (u : ℕ)
    (hu : u ∈ univ) (hne : u ∉ excl) :
    sumF f univ (u :: excl) + f u ≤ sumF f univ excl := by
  induction univ with
  | nil => exact absurd hu (by simp)
  | cons v univ ih =>
    rw [sumF_cons, sumF_cons]
    by_cases hv : v = u
    · subst hv
      rw [if_pos (List.mem_cons_self v excl), if_neg hne]
      have := sumF_mono f univ v excl
      omega
    · rcases List.mem_cons.mp hu with h | h
      · exact absurd h.symm hv
      · have hcv : (if v ∈ u :: excl then 0 else f v) =
            (if v ∈ excl then 0 else f v) := by
          simp only [List.mem_cons, hv, false_or]
        have := ih h
        omega

theorem pqMin_mem (l : List (ℚ × ℕ)) (m : ℚ × ℕ) (h : pqMin l = some m) :
    m ∈ l := by
  unfold pqMin at h
  suffices haux : ∀ (l : List (ℚ × ℕ)) (acc : Option (ℚ × ℕ)) (m : ℚ × ℕ),
      l.foldl (fun acc x => match acc with
        | none => some x
        | some m => if pqLt x m then some x else some m) acc = some m →
      m ∈ l ∨ acc = some m by
    rcases haux l none m h with hm | hm
    · exact hm
    · exact absurd hm (by simp)
  intro l
  induction l with
  | nil => exact fun acc m h => Or.inr h
  | cons x l ih =>
    intro acc m h
    simp only [List.foldl_cons] at h
    rcases ih _ m h with hm | hm
    · exact Or.inl (List.mem_cons_of_mem x hm)
    · match acc with
      | none =>
        injection hm with hm
        exact Or.inl (hm ▸ List.mem_cons_self x l)
      | some m' =>
        change (if pqLt x m' then some x else some m') = some m at hm
        split at hm
        · injection hm with hm
          exact Or.inl (hm ▸ List.mem_cons_self x l)
        · exact Or.inr hm

theorem popMin_spec (l : List (ℚ × ℕ)) (hne : l ≠ []) :
    ∃ m rest, popMin l = some (m, rest) ∧ m ∈ l ∧
      rest.length + 1 = l.length ∧ ∀ p ∈ rest, p ∈ l := by
  match l, hne with
  | x :: l', _ =>
    unfold popMin
    match hm : pqMin (x :: l') with
    | none =>
      exfalso
      unfold pqMin at hm
      have : ∀ (l : List (ℚ × ℕ)) (acc : Option (ℚ × ℕ)),
          l.foldl (fun acc x => match acc with
            | none => some x
            | some m => if pqLt x m then some x else some m) acc = none →
          acc = none := by
        intro l
        induction l with
        | nil => exact fun acc h => h
        | cons y l ih =>
          intro acc h
          have h2 := ih _ h
          match acc with
          | none => rfl
          | some m' =>
            exfalso
            change (if pqLt y m' then some y else some m') = none at h2
            split at h2 <;> exact Option.noConfusion h2
      have := this l' (some x) (by simpa using hm)
      simp at this
    | some m =>
      have hmem : m ∈ x :: l' := pqMin_mem _ m hm
      refine ⟨m, (x :: l').erase m, rfl, hmem, ?_, ?_⟩
      · rw [List.length_erase_of_mem hmem]
        have : (x :: l').length ≠ 0 := by simp
        omega
      · intro p hp
        exact List.mem_of_mem_erase hp

/-- Well-formedness of a finite schedule store: transfer targets, trip
stops and candidate trips stay within the store's finite key sets, and
candidate sequence numbers are valid row numbers of their trip. -/
structure DetNetWF (net : DetNet) : Prop where
  transfer_stops : ∀ u, ∀ p ∈ net.transfers u, p.1 ∈ net.stopIds
  trip_stops : ∀ t, ∀ row ∈ net.tripStops t, row.1 ∈ net.stopIds
  arr_trips : ∀ u q, ∀ c ∈ net.tripsArrivingWithin u q,
    c.1 ∈ net.tripIds ∧ c.2.1 ≤ (net.tripStops c.1).length
  dep_trips : ∀ u q, ∀ c ∈ net.tripsDepartingWithin u q,
    c.1 ∈ net.tripIds ∧ c.2.1 ≤ (net.tripStops c.1).length

/-- Every queue entry names a stop of the store. -/
def QInv (net : DetNet) (s : DetSearchState) : Prop :=
  ∀ p ∈ s.stop_queue, p.2 ∈ net.stopIds

/-- The termination potential of the labeling loop: queue entries still
to pop, plus pending transfer relaxations of unprocessed stops, plus
pending stop relaxations of unexpanded trips. -/
def phiDet (net : DetNet) (s : DetSearchState) : ℕ :=
  s.stop_queue.length +
    sumF (fun u => (net.transfers u).length) net.stopIds s.stop_done +
    sumF (fun t => (net.tripStops t).length) net.tripIds s.trips_used

theorem detTransferRelaxOne_spec (outbound : Bool)
    (bw : Mode → StopId → Option ℚ) (u : StopId) (ust : PathState)
    (lbl : ℚ) (s : DetSearchState) (xfer : StopId × ℚ) :
    (detTransferRelaxOne outbound bw u ust lbl s xfer).stop_done =
        s.stop_done ∧
      (detTransferRelaxOne outbound bw u ust lbl s xfer).trips_used =
        s.trips_used ∧
      ((detTransferRelaxOne outbound bw u ust lbl s xfer).stop_queue =
          s.stop_queue ∨
        ∃ lb, (detTransferRelaxOne outbound bw u ust lbl s xfer).stop_queue
          = s.stop_queue ++ [(lb, xfer.1)]) := by
  unfold detTransferRelaxOne
  split
  · exact ⟨rfl, rfl, Or.inl rfl⟩
  · split
    · exact ⟨rfl, rfl, Or.inr ⟨_, rfl⟩⟩
    · exact ⟨rfl, rfl, Or.inl rfl⟩

theorem foldl_transferRelax_spec (outbound : Bool)
    (bw : Mode → StopId → Option ℚ) (u : StopId) (ust : PathState)
    (lbl : ℚ) (l : List (StopId × ℚ)) (s : DetSearchState) :
    (l.foldl (detTransferRelaxOne outbound bw u ust lbl) s).stop_done =
        s.stop_done ∧
      (l.foldl (detTransferRelaxOne outbound bw u ust lbl) s).trips_used =
        s.trips_used ∧
      (l.foldl (detTransferRelaxOne outbound bw u ust lbl)
          s).stop_queue.length ≤ s.stop_queue.length + l.length ∧
      (∀ p ∈ (l.foldl (detTransferRelaxOne outbound bw u ust lbl)
          s).stop_queue, p ∈ s.stop_queue ∨ ∃ x ∈ l, p.2 = x.1) := by
  induction l generalizing s with
  | nil => exact ⟨rfl, rfl, Nat.le_add_right _ _, fun p hp => Or.inl hp⟩
  | cons x l ih =>
    simp only [List.foldl_cons]
    rcases detTransferRelaxOne_spec outbound bw u ust lbl s x with
      ⟨h1, h2, h3⟩
    rcases ih (detTransferRelaxOne outbound bw u ust lbl s x) with
      ⟨g1, g2, g3, g4⟩
    refine ⟨h1 ▸ g1, h2 ▸ g2, ?_, ?_⟩
    · rcases h3 with h3 | ⟨lb, h3⟩
      · rw [h3] at g3
        simp only [List.length_cons]
        omega
      · rw [h3] at g3
        simp only [List.length_append, List.length_cons, List.length_nil]
          at g3
        simp only [List.length_cons]
        omega
    · intro p hp
      rcases g4 p hp with hp2 | ⟨y, hy, hpy⟩
      · rcases h3 with h3 | ⟨lb, h3⟩
        · rw [h3] at hp2
          exact Or.inl hp2
        · rw [h3] at hp2
          rcases List.mem_append.mp hp2 with hp3 | hp3
          · exact Or.inl hp3
          · refine Or.inr ⟨x, List.mem_cons_self x l, ?_⟩
            simp only [List.mem_singleton] at hp3
            rw [hp3]
      · exact Or.inr ⟨y, List.mem_cons_of_mem x hy, hpy⟩

theorem detTripRelaxOne_spec (outbound : Bool) (u : StopId)
    (tripId : TripId) (arrdep waitTime lbl : ℚ)
    (tripStopRows : List (StopId × ℚ × ℚ)) (s : DetSearchState)
    (seqNum : ℕ) :
    (detTripRelaxOne outbound u tripId arrdep waitTime lbl tripStopRows s
        seqNum).stop_done = s.stop_done ∧
      (detTripRelaxOne outbound u tripId arrdep waitTime lbl tripStopRows
        s seqNum).trips_used = s.trips_used ∧
      ((detTripRelaxOne outbound u tripId arrdep waitTime lbl tripStopRows
          s seqNum).stop_queue = s.stop_queue ∨
        ∃ lb row, row ∈ tripStopRows ∧
          (detTripRelaxOne outbound u tripId arrdep waitTime lbl
            tripStopRows s seqNum).stop_queue =
            s.stop_queue ++ [(lb, row.1)]) := by
  unfold detTripRelaxOne
  split
  · exact ⟨rfl, rfl, Or.inl rfl⟩
  · rename_i row heq
    split
    · exact ⟨rfl, rfl, Or.inr ⟨_, row, List.get?_mem heq, rfl⟩⟩
    · exact ⟨rfl, rfl, Or.inl rfl⟩

theorem foldl_tripRelax_spec (outbound : Bool) (u : StopId)
    (tripId : TripId) (arrdep waitTime lbl : ℚ)
    (tripStopRows : List (StopId × ℚ × ℚ)) (l : List ℕ)
    (s : DetSearchState) :
    (l.foldl (detTripRelaxOne outbound u tripId arrdep waitTime lbl
        tripStopRows) s).stop_done = s.stop_done ∧
      (l.foldl (detTripRelaxOne outbound u tripId arrdep waitTime lbl
        tripStopRows) s).trips_used = s.trips_used ∧
      (l.foldl (detTripRelaxOne outbound u tripId arrdep waitTime lbl
        tripStopRows) s).stop_queue.length ≤
        s.stop_queue.length + l.length ∧
      (∀ p ∈ (l.foldl (detTripRelaxOne outbound u tripId arrdep waitTime
          lbl tripStopRows) s).stop_queue,
        p ∈ s.stop_queue ∨ ∃ row ∈ tripStopRows, p.2 = row.1) := by
  induction l generalizing s with
  | nil => exact ⟨rfl, rfl, Nat.le_add_right _ _, fun p hp => Or.inl hp⟩
  | cons x l ih =>
    simp only [List.foldl_cons]
    rcases detTripRelaxOne_spec outbound u tripId arrdep waitTime lbl
      tripStopRows s x with ⟨h1, h2, h3⟩
    rcases ih (detTripRelaxOne outbound u tripId arrdep waitTime lbl
      tripStopRows s x) with ⟨g1, g2, g3, g4⟩
    refine ⟨h1 ▸ g1, h2 ▸ g2, ?_, ?_⟩
    · rcases h3 with h3 | ⟨lb, row, hrow, h3⟩ <;>
        · rw [h3] at g3
          simp only [List.length_append, List.length_cons,
            List.length_nil] at g3 ⊢
          omega
    · intro p hp
      rcases g4 p hp with hp2 | ⟨row, hrow, hprow⟩
      · rcases h3 with h3 | ⟨lb, row, hrow, h3⟩
        · rw [h3] at hp2
          exact Or.inl hp2
        · rw [h3] at hp2
          rcases List.mem_append.mp hp2 with hp3 | hp3
          · exact Or.inl hp3
          · refine Or.inr ⟨row, hrow, ?_⟩
            simp only [List.mem_singleton] at hp3
            rw [hp3]
      · exact Or.inr ⟨row, hrow, hprow⟩

theorem detSeqList_length (outbound : Bool) (seq n : ℕ) (hseq : seq ≤ n) :
    (detSeqList outbound seq n).length ≤ n := by
  unfold detSeqList
  split <;> · simp; try omega

theorem detTransferBlock_spec (net : DetNet) (outbound : Bool)
    (bw : Mode → StopId → Option ℚ) (u : StopId) (ust : PathState)
    (lbl : ℚ) (s : DetSearchState)
    (hxs : ∀ p ∈ net.transfers u, p.1 ∈ net.stopIds) :
    (detTransferBlock net outbound bw u ust lbl s).stop_done =
        s.stop_done ∧
      (detTransferBlock net outbound bw u ust lbl s).trips_used =
        s.trips_used ∧
      (detTransferBlock net outbound bw u ust lbl s).stop_queue.length ≤
        s.stop_queue.length + (net.transfers u).length ∧
      (∀ p ∈ (detTransferBlock net outbound bw u ust lbl s).stop_queue,
        p ∈ s.stop_queue ∨ p.2 ∈ net.stopIds) := by
  unfold detTransferBlock
  split
  · rcases foldl_transferRelax_spec outbound bw u ust lbl
      (net.transfers u) s with ⟨h1, h2, h3, h4⟩
    refine ⟨h1, h2, h3, ?_⟩
    intro p hp
    rcases h4 p hp with hp2 | ⟨x, hx, hpx⟩
    · exact Or.inl hp2
    · exact Or.inr (hpx ▸ hxs x hx)
  · exact ⟨rfl, rfl, Nat.le_add_right _ _, fun p hp => Or.inl hp⟩

theorem detProcessTrip_phi (net : DetNet) (outbound : Bool)
    (bw : Mode → StopId → Option ℚ) (u : StopId) (ust : PathState)
    (lbl : ℚ) (s : DetSearchState) (cand : TripId × ℕ × ℚ)
    (hct : cand.1 ∈ net.tripIds)
    (hcs : cand.2.1 ≤ (net.tripStops cand.1).length)
    (hrows : ∀ t, ∀ row ∈ net.tripStops t, row.1 ∈ net.stopIds) :
    (detProcessTrip net outbound bw u ust lbl s cand).stop_done =
        s.stop_done ∧
      (detProcessTrip net outbound bw u ust lbl s cand).stop_queue.length
          + sumF (fun t => (net.tripStops t).length) net.tripIds
            (detProcessTrip net outbound bw u ust lbl s cand).trips_used ≤
        s.stop_queue.length +
          sumF (fun t => (net.tripStops t).length) net.tripIds
            s.trips_used ∧
      (∀ p ∈ (detProcessTrip net outbound bw u ust lbl s cand).stop_queue,
        p ∈ s.stop_queue ∨ p.2 ∈ net.stopIds) := by
  unfold detProcessTrip
  split
  · exact ⟨rfl, le_refl _, fun p hp => Or.inl hp⟩
  · split
    · exact ⟨rfl, le_refl _, fun p hp => Or.inl hp⟩
    · rename_i hmem hskip
      rcases foldl_tripRelax_spec outbound u cand.1 cand.2.2
        (((ust.deparr - cand.2.2) * (if outbound = true then 1 else -1)))
        lbl (net.tripStops cand.1)
        (detSeqList outbound cand.2.1 (net.tripStops cand.1).length)
        { s with trips_used := cand.1 :: s.trips_used } with
        ⟨h1, h2, h3, h4⟩
      refine ⟨h1, ?_, ?_⟩
      · rw [h2]
        have hrem := sumF_remove (fun t => (net.tripStops t).length)
          net.tripIds s.trips_used cand.1 hct hmem
        have hlen := detSeqList_length outbound cand.2.1
          (net.tripStops cand.1).length hcs
        simp only at h3 hrem ⊢
        omega
      · intro p hp
        rcases h4 p hp with hp2 | ⟨row, hrow, hprow⟩
        · exact Or.inl hp2
        · exact Or.inr (hprow ▸ hrows cand.1 row hrow)

theorem foldl_processTrip_phi (net : DetNet) (outbound : Bool)
    (bw : Mode → StopId → Option ℚ) (u : StopId) (ust : PathState)
    (lbl : ℚ) (l : List (TripId × ℕ × ℚ)) (s : DetSearchState)
    (hl : ∀ c ∈ l, c.1 ∈ net.tripIds ∧
      c.2.1 ≤ (net.tripStops c.1).length)
    (hrows : ∀ t, ∀ row ∈ net.tripStops t, row.1 ∈ net.stopIds) :
    (l.foldl (detProcessTrip net outbound bw u ust lbl) s).stop_done =
        s.stop_done ∧
      (l.foldl (detProcessTrip net outbound bw u ust lbl)
          s).stop_queue.length +
          sumF (fun t => (net.tripStops t).length) net.tripIds
            (l.foldl (detProcessTrip net outbound bw u ust lbl)
              s).trips_used ≤
        s.stop_queue.length +
          sumF (fun t => (net.tripStops t).length) net.tripIds
            s.trips_used ∧
      (∀ p ∈ (l.foldl (detProcessTrip net outbound bw u ust lbl)
          s).stop_queue, p ∈ s.stop_queue ∨ p.2 ∈ net.stopIds) := by
  induction l generalizing s with
  | nil => exact ⟨rfl, le_refl _, fun p hp => Or.inl hp⟩
  | cons c l ih =>
    simp only [List.foldl_cons]
    rcases detProcessTrip_phi net outbound bw u ust lbl s c
      (hl c (List.mem_cons_self c l)).1 (hl c (List.mem_cons_self c l)).2
      hrows with ⟨h1, h2, h3⟩
    rcases ih (detProcessTrip net outbound bw u ust lbl s c)
      (fun c' hc' => hl c' (List.mem_cons_of_mem c hc')) with
      ⟨g1, g2, g3⟩
    refine ⟨h1 ▸ g1, by omega, ?_⟩
    intro p hp
    rcases g3 p hp with hp2 | hp2
    · exact h3 p hp2
    · exact Or.inr hp2

theorem detStepProcess_phi (net : DetNet) (outbound : Bool)
    (bw : Mode → StopId → Option ℚ) (s : DetSearchState) (lbl : ℚ)
    (u : StopId) (rest : List (ℚ × ℕ)) (hwf : DetNetWF net)
    (hq : QInv net s) (hu : u ∈ net.stopIds)
    (hrest : rest.length + 1 = s.stop_queue.length)
    (hrq : ∀ p ∈ rest, p ∈ s.stop_queue) :
    phiDet net (detStepProcess net outbound bw s lbl u rest) <
        phiDet net s ∧
      QInv net (detStepProcess net outbound bw s lbl u rest) := by
  unfold detStepProcess
  split
  · constructor
    · have heq : phiDet net { s with stop_queue := rest } =
          rest.length +
            sumF (fun v => (net.transfers v).length) net.stopIds
              s.stop_done +
            sumF (fun t => (net.tripStops t).length) net.tripIds
              s.trips_used := rfl
      rw [heq]
      unfold phiDet
      omega
    · intro p hp
      exact hq p (hrq p hp)
  · rename_i hdone
    split
    · constructor
      · have heq : phiDet net
            { s with stop_queue := rest, stop_done := u :: s.stop_done } =
            rest.length +
              sumF (fun v => (net.transfers v).length) net.stopIds
                (u :: s.stop_done) +
              sumF (fun t => (net.tripStops t).length) net.tripIds
                s.trips_used := rfl
        rw [heq]
        unfold phiDet
        have := sumF_mono (fun v => (net.transfers v).length) net.stopIds
          u s.stop_done
        omega
      · intro p hp
        exact hq p (hrq p hp)
    · rename_i ust hst
      rcases detTransferBlock_spec net outbound bw u ust lbl
        { s with stop_queue := rest, stop_done := u :: s.stop_done }
        (hwf.transfer_stops u) with ⟨b1, b2, b3, b4⟩
      have hcands : ∀ c ∈ (if outbound = true
          then net.tripsArrivingWithin u ust.deparr
          else net.tripsDepartingWithin u ust.deparr),
          c.1 ∈ net.tripIds ∧ c.2.1 ≤ (net.tripStops c.1).length := by
        split
        · exact hwf.arr_trips u ust.deparr
        · exact hwf.dep_trips u ust.deparr
      rcases foldl_processTrip_phi net outbound bw u ust lbl
        (if outbound = true then net.tripsArrivingWithin u ust.deparr
          else net.tripsDepartingWithin u ust.deparr)
        (detTransferBlock net outbound bw u ust lbl
          { s with stop_queue := rest, stop_done := u :: s.stop_done })
        hcands hwf.trip_stops with ⟨f1, f2, f3⟩
      have hdoneb : (detTransferBlock net outbound bw u ust lbl
          { s with stop_queue := rest, stop_done := u :: s.stop_done
          }).stop_done =
          u :: s.stop_done := b1
      have husedb : (detTransferBlock net outbound bw u ust lbl
          { s with stop_queue := rest, stop_done := u :: s.stop_done
          }).trips_used =
          s.trips_used := b2
      have hqb : (detTransferBlock net outbound bw u ust lbl
          { s with stop_queue := rest, stop_done := u :: s.stop_done
          }).stop_queue.length ≤
          rest.length + (net.transfers u).length := b3
      rw [husedb] at f2
      have hdonef := f1.trans hdoneb
      constructor
      · unfold phiDet
        rw [hdonef]
        have hrem : sumF (fun v => (net.transfers v).length) net.stopIds
            (u :: s.stop_done) + (net.transfers u).length ≤
            sumF (fun v => (net.transfers v).length) net.stopIds
              s.stop_done :=
          sumF_remove (fun v => (net.transfers v).length) net.stopIds
            s.stop_done u hu hdone
        omega
      · intro p hp
        rcases f3 p hp with hp2 | hp2
        · rcases b4 p hp2 with hp3 | hp3
          · exact hq p (hrq p hp3)
          · exact hp3
        · exact hp2

theorem detStep_phi (net : DetNet) (outbound : Bool)
    (bw : Mode → StopId → Option ℚ) (s : DetSearchState)
    (hwf : DetNetWF net) (hq : QInv net s) (hne : s.stop_queue ≠ []) :
    phiDet net (detStep net outbound bw s) < phiDet net s ∧
      QInv net (detStep net outbound bw s) := by
  rcases popMin_spec s.stop_queue hne with ⟨m, rest, hpop, hmem, hrest, hrq⟩
  have := detStepProcess_phi net outbound bw s m.1 m.2 rest hwf hq
    (hq m hmem) hrest hrq
  unfold detStep
  rw [hpop]
  exact this

theorem detRun_drain (net : DetNet) (outbound : Bool)
    (bw : Mode → StopId → Option ℚ) (hwf : DetNetWF net) :
    ∀ (n : ℕ) (s : DetSearchState), QInv net s → phiDet net s ≤ n →
      (detRun net outbound bw n s).stop_queue = [] := by
  intro n
  induction n with
  | zero =>
    intro s _ hp
    have hlen : s.stop_queue.length = 0 := by
      unfold phiDet at hp
      omega
    exact List.length_eq_zero.mp hlen
  | succ n ih =>
    intro s hq hp
    unfold detRun
    split
    · rename_i hempty
      exact List.isEmpty_iff.mp hempty
    · rename_i hempty
      have hne : s.stop_queue ≠ [] := by
        intro hc
        rw [hc] at hempty
        simp at hempty
      rcases detStep_phi net outbound bw s hwf hq hne with ⟨h1, h2⟩
      exact ih _ h2 (by omega)

theorem detInit_qinv (net : DetNet) (outbound : Bool) (startTaz : ℕ)
    (accessLinks : List (StopId × ℚ)) (preferredTime : ℚ)
    (hacc : ∀ p ∈ accessLinks, p.1 ∈ net.stopIds) :
    QInv net (detInit outbound startTaz accessLinks preferredTime) := by
  unfold detInit
  have haux : ∀ (l : List (StopId × ℚ)) (s : DetSearchState),
      (∀ p ∈ l, p.1 ∈ net.stopIds) → QInv net s →
      QInv net (l.foldl (fun s al =>
        { s with
          stop_states := updFn s.stop_states al.1
            (some ⟨al.2,
              preferredTime - al.2 * (if outbound then 1 else -1),
              (if outbound then Mode.egress else Mode.access), startTaz,
              al.2⟩),
          stop_queue := s.stop_queue ++ [(al.2, al.1)] }) s) := by
    intro l
    induction l with
    | nil => exact fun s _ h => h
    | cons al l ih =>
      intro s hl h
      simp only [List.foldl_cons]
      refine ih _ (fun p hp => hl p (List.mem_cons_of_mem al hp)) ?_
      intro p hp
      rcases List.mem_append.mp hp with hp2 | hp2
      · exact h p hp2
      · simp only [List.mem_singleton] at hp2
        rw [hp2]
        exact hl al (List.mem_cons_self al l)
  refine haux accessLinks _ hacc ?_
  intro p hp
  exact absurd hp (by simp)

/-- C10: the deterministic labeling loop terminates for every finite
schedule store.  Each stop is finalized at most once and each trip is
expanded at most once, so the potential `phiDet` (queue entries plus
pending relaxations of unprocessed stops and unexpanded trips) strictly
decreases at every loop iteration; running the loop with that much fuel
drains the priority queue. -/
theorem claim_c10_det_search_terminates (net : DetNet) (outbound : Bool)
    (bw : Mode → StopId → Option ℚ) (startTaz : ℕ)
    (accessLinks : List (StopId × ℚ)) (preferredTime : ℚ)
    (hwf : DetNetWF net)
    (hacc : ∀ p ∈ accessLinks, p.1 ∈ net.stopIds) :
    (detRun net outbound bw
      (phiDet net (detInit outbound startTaz accessLinks preferredTime))
      (detInit outbound startTaz accessLinks preferredTime)).stop_queue =
      [] :=
  detRun_drain net outbound bw hwf _ _
    (detInit_qinv net outbound startTaz accessLinks preferredTime hacc)
    (le_refl _)

theorem claim_c10_det_search_terminates_witness :
    (detRun ⟨[1], [], fun _ => [], fun _ => [], fun _ _ => [],
        fun _ _ => []⟩ true (fun _ _ => none)
      (phiDet ⟨[1], [], fun _ => [], fun _ => [], fun _ _ => [],
          fun _ _ => []⟩
        (detInit true 0 [(1, 5)] 0))
      (detInit true 0 [(1, 5)] 0)).stop_queue = [] :=
  claim_c10_det_search_terminates ⟨[1], [], fun _ => [], fun _ => [],
      fun _ _ => [], fun _ _ => []⟩ true (fun _ _ => none) 0 [(1, 5)] 0
    ⟨fun u p hp => absurd hp (by simp),
     fun t row hrow => absurd hrow (by simp),
     fun u q c hc => absurd hc (by simp),
     fun u q c hc => absurd hc (by simp)⟩
    (fun p hp => by
      simp only [List.mem_singleton] at hp
      rw [hp]
      simp)

/-! ## `Assignment.find_trip_based_hyperpath` (lines 540-821) and
`Assignment.choose_path_from_hyperpath_states` (lines 823-926)

The stochastic hyperpath search.  Generalized costs and labels are real
numbers (`math.exp` / `math.log` become `Real.exp` / `Real.log`); clock
times stay rational.  `DISPERSION_PARAMETER` and the `Path` cost weights
are parameters. -/

/-- One hyperpath stop state
`[label, departure, departure_mode, successor, linktime, cost, arrival]`
(line 564). -/
structure HypState where
  label : ℝ
  deparr : ℚ
  mode : Mode
  succpred : ℕ
  linktime : ℚ
  cost : ℝ
  arrival : ℚ

/-- `MAX_COST = 999999` (line 568). -/
def MAX_COST : ℝ := 999999

/-- `MAX_DATETIME`, 48 hours past midnight in minutes (line 567). -/
def MAX_DATETIME : ℚ := 2880

/-- `Assignment.MAX_HYPERPATH_ASSIGN_ATTEMPTS` (line 89). -/
def MAX_HYPERPATH_ASSIGN_ATTEMPTS : ℕ := 1001

/-- Sum of `exp(-θ·cost)` over the non-walk states of a state list
(lines 491-494). -/
noncomputable def nonwalkSum (θ : ℝ) (stateList : List HypState) : ℝ :=
  stateList.foldl
    (fun acc st =>
      if st.mode = .egress ∨ st.mode = .transfer ∨ st.mode = .access then
        acc
      else acc + Real.exp (-1 * θ * st.cost)) 0

open scoped Classical

/-- `Assignment.calculate_nonwalk_label` (lines 486-499). -/
noncomputable def calculate_nonwalk_label (θ : ℝ)
    (stateList : List HypState) (notFoundValue : ℝ) : ℝ :=
  if nonwalkSum θ stateList = 0 then notFoundValue
  else -1 / θ * Real.log (nonwalkSum θ stateList)

/-- The logit log-sum of an existing aggregate label and a new candidate
cost, floored at 0.01 (lines 645-647, 717-719, 786-788). -/
noncomputable def logsumLabel (θ oldLabel cost : ℝ) : ℝ :=
  max 0.01
    (-1 / θ * Real.log
      (Real.exp (-1 * θ * oldLabel) + Real.exp (-1 * θ * cost)))

/-- The append-only state relaxation shared by the hyperpath's transfer
update (lines 641-659) and trip update (lines 713-731): the most recently
stored label (or `MAX_COST` when the stop has no states) is merged with
the new cost by log-sum, and when the resulting label passes the
`new_label < MAX_COST and new_label > 0` gate the built state is appended
and its label returned for enqueueing. -/
noncomputable def hypRelaxTarget (θ : ℝ) (mk : ℝ → ℝ → HypState)
    (cost : ℝ) (tgt : List HypState) : List HypState × Option ℝ :=
  match tgt.getLast? with
  | none =>
    if cost < MAX_COST ∧ 0 < cost then (tgt ++ [mk cost cost], some cost)
    else (tgt, none)
  | some lastState =>
    if logsumLabel θ lastState.label cost < MAX_COST ∧
        0 < logsumLabel θ lastState.label cost then
      (tgt ++ [mk (logsumLabel θ lastState.label cost) cost],
        some (logsumLabel θ lastState.label cost))
    else (tgt, none)

/-- Relaxing toward a stop with no stored states: the raw cost is the
label, and it is stored when it passes the gate. -/
theorem hypRelaxTarget_empty (θ : ℝ) (mk : ℝ → ℝ → HypState) (cost : ℝ)
    (h1 : cost < MAX_COST) (h2 : 0 < cost) :
    hypRelaxTarget θ mk cost [] = ([mk cost cost], some cost) := by
  unfold hypRelaxTarget
  simp only [List.getLast?_nil]
  rw [if_pos ⟨h1, h2⟩]
  simp

/-- The guard of the hyperpath transfer block (line 627): only `EGRESS`
and `ACCESS` are excluded. -/
def hypTransferAllowed (m : Mode) : Bool :=
  decide (m ∉ [Mode.egress, Mode.access])

/-- `current_mode = current_stop_state[0][Path.STATE_IDX_DEPARRMODE]`
(line 611): the mode of the first stored state. -/
def hypCurrentMode (stateList : List HypState) : Mode :=
  match stateList with
  | [] => Mode.access
  | st :: _ => st.mode

/-- The hyperpath transfer-relaxation block (lines 625-659), returning
the updated stop-state map and the enqueued `(label, stop)` entries. -/
noncomputable def hypTransferBlock (θ wXfer : ℝ) (outbound : Bool)
    (u : StopId) (currentStates : List HypState)
    (latestDepEarliestArr : ℚ) (transfers : List (StopId × ℚ))
    (ss : StopId → List HypState) :
    (StopId → List HypState) × List (ℝ × StopId) :=
  if hypTransferAllowed (hypCurrentMode currentStates) then
    transfers.foldl
      (fun acc xfer =>
        match hypRelaxTarget θ
          (fun newLabel cost =>
            ⟨newLabel,
              latestDepEarliestArr - xfer.2 * (if outbound then 1 else -1),
              .transfer, u, xfer.2, cost, MAX_DATETIME⟩)
          (calculate_nonwalk_label θ currentStates MAX_COST +
            wXfer * (xfer.2 : ℝ))
          (acc.1 xfer.1) with
        | (newList, none) => (updFn acc.1 xfer.1 newList, acc.2)
        | (newList, some lb) =>
          (updFn acc.1 xfer.1 newList, acc.2 ++ [(lb, xfer.1)]))
      (ss, [])
  else (ss, [])

/-- C7: in the hyperpath search, when a new candidate state with cost `c`
reaches a stop that already has states and whose most recently stored
aggregate label is `L`, the newly stored and enqueued aggregate label is
`max(0.01, -(1/θ)·ln(e^(-θL) + e^(-θc)))` with `θ` the dispersion
parameter, and the new state is appended to the stop's state list rather
than replacing any existing state. -/
theorem claim_c7_hyperpath_logsum_append (θ : ℝ) (mk : ℝ → ℝ → HypState)
    (cost : ℝ) (tgt : List HypState) (lastState : HypState) (hθ : 0 < θ)
    (hlast : tgt.getLast? = some lastState)
    (hlt : lastState.label < MAX_COST) :
    hypRelaxTarget θ mk cost tgt =
      (tgt ++ [mk (logsumLabel θ lastState.label cost) cost],
        some (logsumLabel θ lastState.label cost)) ∧
    logsumLabel θ lastState.label cost =
      max 0.01 (-(1 / θ) * Real.log
        (Real.exp (-(θ * lastState.label)) + Real.exp (-(θ * cost)))) := by
  have hpos : 0 < logsumLabel θ lastState.label cost :=
    lt_of_lt_of_le (by norm_num) (le_max_left _ _)
  have hXle : -1 / θ * Real.log
      (Real.exp (-1 * θ * lastState.label) + Real.exp (-1 * θ * cost)) ≤
      lastState.label := by
    have h1 : Real.exp (-1 * θ * lastState.label) ≤
        Real.exp (-1 * θ * lastState.label) + Real.exp (-1 * θ * cost) :=
      le_add_of_nonneg_right (Real.exp_pos _).le
    have h2 := Real.log_le_log (Real.exp_pos _) h1
    rw [Real.log_exp] at h2
    have h3 : (-1 / θ) * Real.log
        (Real.exp (-1 * θ * lastState.label) +
          Real.exp (-1 * θ * cost)) ≤
        (-1 / θ) * (-1 * θ * lastState.label) :=
      mul_le_mul_of_nonpos_left h2
        (div_nonpos_of_nonpos_of_nonneg (by norm_num) hθ.le)
    have h4 : (-1 / θ) * (-1 * θ * lastState.label) = lastState.label := by
      field_simp
    linarith
  have hltM : logsumLabel θ lastState.label cost < MAX_COST := by
    unfold logsumLabel
    refine max_lt (by norm_num [MAX_COST]) (lt_of_le_of_lt hXle hlt)
  refine ⟨?_, ?_⟩
  · unfold hypRelaxTarget
    simp only [hlast]
    rw [if_pos ⟨hltM, hpos⟩]
  · unfold logsumLabel
    ring_nf

theorem claim_c7_hyperpath_logsum_append_witness :
    hypRelaxTarget 1
        (fun lb c => ⟨lb, 0, Mode.transfer, 0, 0, c, 0⟩) 3
        [⟨2, 0, Mode.trip 0, 0, 0, 2, 0⟩] =
      ([⟨2, 0, Mode.trip 0, 0, 0, 2, 0⟩] ++
        [⟨logsumLabel 1 2 3, 0, Mode.transfer, 0, 0, 3, 0⟩],
        some (logsumLabel 1 2 3)) :=
  (claim_c7_hyperpath_logsum_append 1
    (fun lb c => ⟨lb, 0, Mode.transfer, 0, 0, c, 0⟩) 3
    [⟨2, 0, Mode.trip 0, 0, 0, 2, 0⟩] ⟨2, 0, Mode.trip 0, 0, 0, 2, 0⟩
    (by norm_num) rfl (by norm_num [MAX_COST])).1

/-- C4 counterexample: in the stochastic hyperpath search the
transfer-block guard of line 627 excludes only `EGRESS` and `ACCESS`, so
a stop whose current mode is `TRANSFER` does relax transfer edges: with
`θ = 1`, a transfer weight of `1`, a current stop whose first stored
state is a transfer state (and whose second is a trip state of cost 5),
and a fresh neighbor stop `2` one minute away, the block appends a new
transfer state at stop `2`. -/
theorem claim_c4_counterexample :
    hypCurrentMode
        [⟨1, 0, Mode.transfer, 0, 0, (1 : ℝ), 0⟩,
         ⟨1, 0, Mode.trip 7, 0, 0, (5 : ℝ), 0⟩] = Mode.transfer ∧
      (hypTransferBlock 1 1 true 0
          [⟨1, 0, Mode.transfer, 0, 0, (1 : ℝ), 0⟩,
           ⟨1, 0, Mode.trip 7, 0, 0, (5 : ℝ), 0⟩] 0 [(2, 1)]
          (fun _ => [])).1 2 ≠ [] := by
  constructor
  · rfl
  · have hsum : nonwalkSum 1
        [⟨1, 0, Mode.transfer, 0, 0, (1 : ℝ), 0⟩,
         ⟨1, 0, Mode.trip 7, 0, 0, (5 : ℝ), 0⟩] =
        Real.exp (-1 * 1 * 5) := by
      simp [nonwalkSum]
    have hnz : nonwalkSum 1
        [⟨1, 0, Mode.transfer, 0, 0, (1 : ℝ), 0⟩,
         ⟨1, 0, Mode.trip 7, 0, 0, (5 : ℝ), 0⟩] ≠ 0 := by
      rw [hsum]
      exact Real.exp_ne_zero _
    have hnw : calculate_nonwalk_label 1
        [⟨1, 0, Mode.transfer, 0, 0, (1 : ℝ), 0⟩,
         ⟨1, 0, Mode.trip 7, 0, 0, (5 : ℝ), 0⟩] MAX_COST = 5 := by
      unfold calculate_nonwalk_label
      rw [if_neg hnz, hsum, Real.log_exp]
      norm_num
    have hcost : calculate_nonwalk_label 1
        [⟨1, 0, Mode.transfer, 0, 0, (1 : ℝ), 0⟩,
         ⟨1, 0, Mode.trip 7, 0, 0, (5 : ℝ), 0⟩] MAX_COST +
        1 * (((1 : ℚ) : ℝ)) = 6 := by
      rw [hnw]
      push_cast
      norm_num
    unfold hypTransferBlock
    rw [if_pos (show hypTransferAllowed (hypCurrentMode
      [⟨1, 0, Mode.transfer, 0, 0, (1 : ℝ), 0⟩,
       ⟨1, 0, Mode.trip 7, 0, 0, (5 : ℝ), 0⟩]) = true from rfl)]
    simp only [List.foldl_cons, List.foldl_nil]
    rw [hcost, hypRelaxTarget_empty 1 _ 6 (by norm_num [MAX_COST])
      (by norm_num)]
    simp [updFn]

/-- C4 amended: in the deterministic shortest-path search, a transfer
edge is relaxed only when the popped stop's current mode is itself a trip
(never `EGRESS`, `TRANSFER` or `ACCESS`); in the stochastic hyperpath
search the guard excludes only `EGRESS` and `ACCESS`, so a transfer edge
can be relaxed out of a stop whose current (first-stored) mode is
`TRANSFER`. -/
theorem claim_c4_transfer_guards :
    (∀ m, detTransferAllowed m = true ↔ m.isTrip = true) ∧
    (∀ (net : DetNet) (outbound : Bool) (bw : Mode → StopId → Option ℚ)
      (u : StopId) (ust : PathState) (lbl : ℚ) (s : DetSearchState),
      detTransferAllowed ust.mode = false →
      detTransferBlock net outbound bw u ust lbl s = s) ∧
    (∀ m, hypTransferAllowed m = true ↔
      (m ≠ Mode.egress ∧ m ≠ Mode.access)) ∧
    (∀ (θ wXfer : ℝ) (outbound : Bool) (u : StopId)
      (currentStates : List HypState) (latest : ℚ)
      (transfers : List (StopId × ℚ)) (ss : StopId → List HypState),
      hypTransferAllowed (hypCurrentMode currentStates) = false →
      hypTransferBlock θ wXfer outbound u currentStates latest transfers
        ss = (ss, [])) := by
  refine ⟨?_, ?_, ?_, ?_⟩
  · intro m
    cases m <;> simp [detTransferAllowed, Mode.isTrip]
  · intro net outbound bw u ust lbl s h
    unfold detTransferBlock
    rw [if_neg (by simp [h])]
  · intro m
    cases m <;> simp [hypTransferAllowed]
  · intro θ wXfer outbound u currentStates latest transfers ss h
    unfold hypTransferBlock
    rw [if_neg (by simp [h])]

theorem claim_c4_transfer_guards_witness :
    detTransferBlock ⟨[], [], fun _ => [], fun _ => [], fun _ _ => [],
        fun _ _ => []⟩ true (fun _ _ => none) 0 ⟨0, 0, Mode.egress, 0, 0⟩
        0 ⟨fun _ => none, [], [], []⟩ =
      ⟨fun _ => none, [], [], []⟩ ∧
    hypTransferBlock 1 1 true 0 [⟨0, 0, Mode.egress, 0, 0, 0, 0⟩] 0 []
        (fun _ => []) = (fun _ => [], []) :=
  ⟨claim_c4_transfer_guards.2.1 ⟨[], [], fun _ => [], fun _ => [],
      fun _ _ => [], fun _ _ => []⟩ true (fun _ _ => none) 0
      ⟨0, 0, Mode.egress, 0, 0⟩ 0 ⟨fun _ => none, [], [], []⟩ rfl,
   claim_c4_transfer_guards.2.2.2 1 1 true 0
      [⟨0, 0, Mode.egress, 0, 0, 0, 0⟩] 0 [] (fun _ => []) rfl⟩

/-! ## `Assignment.choose_path_from_hyperpath_states` and the sampling
retry loop (lines 806-821, 823-926, 447-484)

The sampler draws random numbers from an external stream `rand : ℕ → ℤ`
indexed by `rIdx`; each `choose_state` call consumes one index.  The
walk of lines 861-926 is given explicit fuel (the Python `while True`
has no a-priori bound); exhausted fuel is reported as an error distinct
from every Python exception. -/

/-- The feasibility filter of lines 868-880: no double walk in either
direction, and time monotonicity (outbound: cannot depart before
arriving; inbound: cannot arrive after departing). -/
def hypFeasible (outbound : Bool) (lastTrip : Mode) (arrdep : ℚ)
    (st : HypState) : Bool :=
  !(outbound && decide (st.mode ∈ [Mode.egress, Mode.transfer]) &&
      decide (lastTrip ∈ [Mode.access, Mode.transfer])) &&
  !(!outbound && decide (st.mode ∈ [Mode.access, Mode.transfer]) &&
      decide (lastTrip ∈ [Mode.egress, Mode.transfer])) &&
  !(outbound && decide (st.deparr < arrdep)) &&
  !(!outbound && decide (arrdep < st.deparr))

/-- `sum_exp` of line 883: the denominator accumulated over the
feasibility-filtered states. -/
noncomputable def sumExpCost (θ : ℝ) (feas : List HypState) : ℝ :=
  (feas.map (fun st => Real.exp (-1 * θ * st.cost))).sum

/-- The cumulative stop probabilities of lines 893-898:
`int(1000·exp(-θ·cost)/sum_exp)` accumulated in order. -/
noncomputable def stopCumProb (θ : ℝ) (feas : List HypState) :
    List (ℤ × HypState) :=
  feas.foldl
    (fun acc st =>
      match acc.getLast? with
      | none =>
        acc ++ [(⌊1000 * Real.exp (-1 * θ * st.cost) / sumExpCost θ feas⌋,
          st)]
      | some lastPair =>
        acc ++ [(lastPair.1 +
          ⌊1000 * Real.exp (-1 * θ * st.cost) / sumExpCost θ feas⌋, st)])
    []

/-- The cumulative access probabilities of lines 829-843:
`int(1000·exp(-θ·cost)/exp(-θ·taz_label))`, entries with probability
below the cutoff `1` skipped, the rest accumulated in order. -/
noncomputable def accessCumProb (θ : ℝ) (tazLabel : ℝ)
    (tazState : List HypState) : List (ℤ × HypState) :=
  tazState.foldl
    (fun acc st =>
      if ⌊1000 * Real.exp (-1 * θ * st.cost) /
          Real.exp (-1 * θ * tazLabel)⌋ < 1 then acc
      else
        match acc.getLast? with
        | none =>
          acc ++ [(⌊1000 * Real.exp (-1 * θ * st.cost) /
            Real.exp (-1 * θ * tazLabel)⌋, st)]
        | some lastPair =>
          acc ++ [(lastPair.1 + ⌊1000 * Real.exp (-1 * θ * st.cost) /
            Real.exp (-1 * θ * tazLabel)⌋, st)])
    []

/-- `path.states[current_stop] = next_state` (line 912): Python dicts
overwrite in place, preserving insertion order, and append new keys. -/
def pathUpsert (states : List (StopId × HypState)) (k : StopId)
    (v : HypState) : List (StopId × HypState) :=
  if states.any (fun p => p.1 == k) then
    states.map (fun p => if p.1 == k then (k, v) else p)
  else states ++ [(k, v)]

/-- The first-link revision of lines 905-910: outbound, with only the
origin state stored so far, the origin departure is re-anchored to the
chosen trip's scheduled departure at the current stop.  A non-trip mode
here indexes `FT.trips` with a mode string and raises `KeyError`. -/
def sampleRevise (outbound : Bool) (getDep : TripId → StopId → ℚ)
    (current : StopId) (next : HypState)
    (acc : List (StopId × HypState)) :
    Except String (List (StopId × HypState)) :=
  if outbound && acc.length == 1 then
    match acc, next.mode with
    | [(o, ost)], Mode.trip t =>
      .ok [(o, { ost with deparr := getDep t current - ost.linktime })]
    | _, Mode.trip _ => .ok acc
    | _, _ => .error "KeyError"
  else .ok acc

/-- The sampling walk of lines 861-926.  Returns `(none, rIdx)` when the
feasibility-filtered candidate set at the current stop is empty (dead
end, line 888-890), `(some path, rIdx)` when the walk reaches egress
(outbound) or access (inbound). -/
noncomputable def sampleWalk (θ : ℝ) (outbound : Bool)
    (stopStates : StopId → List HypState) (getDep : TripId → StopId → ℚ)
    (rand : ℕ → ℤ) :
    ℕ → StopId → Mode → ℚ → List (StopId × HypState) → ℕ →
      Except String (Option (List (StopId × HypState)) × ℕ)
  | 0, _, _, _, _, _ => .error "OutOfFuel"
  | fuel + 1, current, lastTrip, arrdep, acc, rIdx =>
    match (stopStates current).filter
        (hypFeasible outbound lastTrip arrdep) with
    | [] => .ok (none, rIdx)
    | f :: fs =>
      match choose_state (rand rIdx) (stopCumProb θ (f :: fs)) with
      | .error e => .error e
      | .ok next =>
        match sampleRevise outbound getDep current next acc with
        | .error e => .error e
        | .ok acc1 =>
          if (outbound && decide (next.mode = Mode.egress)) ||
              (!outbound && decide (next.mode = Mode.access)) then
            .ok (some (pathUpsert acc1 current next), rIdx + 1)
          else
            sampleWalk θ outbound stopStates getDep rand fuel
              next.succpred next.mode
              (if next.mode = Mode.transfer then
                arrdep + next.linktime * (if outbound then 1 else -1)
              else next.arrival)
              (pathUpsert acc1 current next) (rIdx + 1)

/-- `Assignment.choose_path_from_hyperpath_states` (lines 823-926):
choose an access/egress state from the TAZ states, then walk. -/
noncomputable def choose_path_from_hyperpath_states (θ : ℝ)
    (outbound : Bool) (originTaz destTaz : StopId)
    (tazState : List HypState) (stopStates : StopId → List HypState)
    (getDep : TripId → StopId → ℚ) (walkFuel : ℕ) (rand : ℕ → ℤ)
    (rIdx : ℕ) :
    Except String (Option (List (StopId × HypState)) × ℕ) :=
  match tazState.getLast? with
  | none => .error "IndexError"
  | some lastTaz =>
    match choose_state (rand rIdx)
        (accessCumProb θ lastTaz.label tazState) with
    | .error e => .error e
    | .ok st0 =>
      sampleWalk θ outbound stopStates getDep rand walkFuel st0.succpred
        st0.mode
        (st0.deparr + st0.linktime * (if outbound then 1 else -1))
        [((if outbound then originTaz else destTaz), st0)] (rIdx + 1)

/-- `Assignment.delay_inbound_path_departure` (lines 447-484): re-time
the first trip and access links of an inbound path; when the bump-wait
table shows the passenger would arrive too late to board, the path is
reset to empty. -/
def delay_inbound_path_departure (getDep : TripId → StopId → ℚ)
    (bw : Mode → StopId → Option ℚ) (prefTime : ℚ)
    (states : List (StopId × HypState)) :
    Except String (List (StopId × HypState)) :=
  match states.get? (states.length - 2), states.get? (states.length - 1)
    with
  | some ftEntry, some accEntry =>
    match ftEntry.2.mode with
    | Mode.trip t =>
      match bw (Mode.trip t) ftEntry.2.succpred with
      | some latest =>
        if prefTime + accEntry.2.linktime + 1 / 100 ≥ latest then .ok []
        else
          .ok ((states.set (states.length - 2)
              (ftEntry.1, { ftEntry.2 with
                linktime := ftEntry.2.deparr -
                  (max prefTime
                    (latest - accEntry.2.linktime - BUMP_BUFFER) +
                    accEntry.2.linktime) })).set
            (states.length - 1)
            (accEntry.1, { accEntry.2 with
              deparr := max prefTime
                (latest - accEntry.2.linktime - BUMP_BUFFER) +
                accEntry.2.linktime }))
      | none =>
        .ok ((states.set (states.length - 2)
            (ftEntry.1, { ftEntry.2 with
              linktime := getDep t ftEntry.1 -
                getDep t ftEntry.2.succpred })).set
          (states.length - 1)
          (accEntry.1, { accEntry.2 with
            deparr := ftEntry.2.deparr -
              (getDep t ftEntry.1 - getDep t ftEntry.2.succpred) }))
    | _ => .error "KeyError"
  | _, _ => .error "IndexError"

/-- The retry loop of lines 806-821: `while not path_found and
attempts < MAX_HYPERPATH_ASSIGN_ATTEMPTS`.  `remaining` counts the
attempts still allowed, `attempts` those already made; a failed attempt
(`none`) resets the path states and retries; a found inbound path of
length at least 2 is re-timed by `delay_inbound_path_departure`. -/
noncomputable def hypAssignLoop (θ : ℝ) (outbound : Bool)
    (originTaz destTaz : StopId) (tazState : List HypState)
    (stopStates : StopId → List HypState)
    (getDep : TripId → StopId → ℚ) (bw : Mode → StopId → Option ℚ)
    (prefTime : ℚ) (walkFuel : ℕ) (rand : ℕ → ℤ) :
    ℕ → ℕ → ℕ → Except String (List (StopId × HypState) × ℕ)
  | 0, attempts, _ => .ok ([], attempts)
  | remaining + 1, attempts, rIdx =>
    match choose_path_from_hyperpath_states θ outbound originTaz destTaz
        tazState stopStates getDep walkFuel rand rIdx with
    | .error e => .error e
    | .ok (none, rIdx2) =>
      hypAssignLoop θ outbound originTaz destTaz tazState stopStates
        getDep bw prefTime walkFuel rand remaining (attempts + 1) rIdx2
    | .ok (some p, _) =>
      if !outbound && decide (2 ≤ p.length) then
        match delay_inbound_path_departure getDep bw prefTime p with
        | .error e => .error e
        | .ok p2 => .ok (p2, attempts + 1)
      else .ok (p, attempts + 1)

/-- C6: in the hyperpath sampler, an attempt whose feasibility-filtered
candidate set at the current stop is empty is aborted (the walk returns
`none` and the retry loop restarts from scratch with a fresh attempt);
the loop makes at most `MAX_HYPERPATH_ASSIGN_ATTEMPTS = 1001` attempts;
and when every attempt fails, the loop returns normally with the empty
path (no exception). -/
theorem claim_c6_sampler_retry_cap :
    MAX_HYPERPATH_ASSIGN_ATTEMPTS = 1001 ∧
    (∀ (θ : ℝ) (outbound : Bool) (stopStates : StopId → List HypState)
      (getDep : TripId → StopId → ℚ) (rand : ℕ → ℤ) (fuel : ℕ)
      (current : StopId) (lastTrip : Mode) (arrdep : ℚ)
      (acc : List (StopId × HypState)) (rIdx : ℕ),
      (stopStates current).filter (hypFeasible outbound lastTrip arrdep)
          = [] →
      sampleWalk θ outbound stopStates getDep rand (fuel + 1) current
        lastTrip arrdep acc rIdx = .ok (none, rIdx)) ∧
    (∀ (θ : ℝ) (outbound : Bool) (originTaz destTaz : StopId)
      (tazState : List HypState) (stopStates : StopId → List HypState)
      (getDep : TripId → StopId → ℚ) (bw : Mode → StopId → Option ℚ)
      (prefTime : ℚ) (walkFuel : ℕ) (rand : ℕ → ℤ)
      (remaining attempts rIdx : ℕ) (p : List (StopId × HypState))
      (n : ℕ),
      hypAssignLoop θ outbound originTaz destTaz tazState stopStates
        getDep bw prefTime walkFuel rand remaining attempts rIdx =
          .ok (p, n) →
      n ≤ attempts + remaining) ∧
    (∀ (θ : ℝ) (outbound : Bool) (originTaz destTaz : StopId)
      (tazState : List HypState) (stopStates : StopId → List HypState)
      (getDep : TripId → StopId → ℚ) (bw : Mode → StopId → Option ℚ)
      (prefTime : ℚ) (walkFuel : ℕ) (rand : ℕ → ℤ) (f : ℕ → ℕ)
      (r0 : ℕ),
      (∀ r, choose_path_from_hyperpath_states θ outbound originTaz
        destTaz tazState stopStates getDep walkFuel rand r =
          .ok (none, f r)) →
      hypAssignLoop θ outbound originTaz destTaz tazState stopStates
        getDep bw prefTime walkFuel rand MAX_HYPERPATH_ASSIGN_ATTEMPTS 0
        r0 = .ok ([], MAX_HYPERPATH_ASSIGN_ATTEMPTS)) := by
  refine ⟨rfl, ?_, ?_, ?_⟩
  · intro θ outbound stopStates getDep rand fuel current lastTrip arrdep
      acc rIdx h
    simp only [sampleWalk, h]
  · intro θ outbound originTaz destTaz tazState stopStates getDep bw
      prefTime walkFuel rand remaining
    induction remaining with
    | zero =>
      intro attempts rIdx p n h
      simp only [hypAssignLoop, Except.ok.injEq, Prod.mk.injEq] at h
      omega
    | succ rem ih =>
      intro attempts rIdx p n h
      cases hcp : choose_path_from_hyperpath_states θ outbound originTaz
          destTaz tazState stopStates getDep walkFuel rand rIdx with
      | error e =>
        simp only [hypAssignLoop, hcp] at h
        exact (Except.noConfusion h)
      | ok v =>
        obtain ⟨op, r2⟩ := v
        cases op with
        | none =>
          simp only [hypAssignLoop, hcp] at h
          have := ih (attempts + 1) r2 p n h
          omega
        | some q =>
          simp only [hypAssignLoop, hcp] at h
          split at h
          · cases hd : delay_inbound_path_departure getDep bw prefTime q
              with
            | error e =>
              simp only [hd] at h
              exact (Except.noConfusion h)
            | ok q2 =>
              simp only [hd, Except.ok.injEq, Prod.mk.injEq] at h
              omega
          · simp only [Except.ok.injEq, Prod.mk.injEq] at h
            omega
  · intro θ outbound originTaz destTaz tazState stopStates getDep bw
      prefTime walkFuel rand f r0 hall
    have key : ∀ (remaining attempts r : ℕ),
        hypAssignLoop θ outbound originTaz destTaz tazState stopStates
          getDep bw prefTime walkFuel rand remaining attempts r =
        .ok ([], attempts + remaining) := by
      intro remaining
      induction remaining with
      | zero => intro attempts r; simp [hypAssignLoop]
      | succ rem ih =>
        intro attempts r
        have h2 : attempts + 1 + rem = attempts + (rem + 1) := by omega
        simp only [hypAssignLoop, hall r]
        rw [ih (attempts + 1) (f r), h2]
    have := key MAX_HYPERPATH_ASSIGN_ATTEMPTS 0 r0
    simpa using this

theorem claim_c6_sampler_retry_cap_witness :
    sampleWalk 1 true (fun _ => []) (fun _ _ => 0) (fun _ => 0) 1 0
        Mode.access 0 [] 0 = .ok (none, 0) ∧
    (∀ (p : List (StopId × HypState)) (n : ℕ),
      hypAssignLoop 1 true 0 1 [] (fun _ => []) (fun _ _ => 0)
        (fun _ _ => none) 0 1 (fun _ => 0) 0 0 0 = .ok (p, n) →
      n ≤ 0 + 0) ∧
    hypAssignLoop 1 true 0 1 [⟨0, 0, Mode.access, 5, 0, 0, 0⟩]
        (fun _ => []) (fun _ _ => 0) (fun _ _ => none) 0 1 (fun _ => 0)
        MAX_HYPERPATH_ASSIGN_ATTEMPTS 0 0 =
      .ok ([], MAX_HYPERPATH_ASSIGN_ATTEMPTS) := by
  refine ⟨?_, ?_, ?_⟩
  · exact claim_c6_sampler_retry_cap.2.1 1 true (fun _ => [])
      (fun _ _ => 0) (fun _ => 0) 0 0 Mode.access 0 [] 0 rfl
  · exact fun p n h => claim_c6_sampler_retry_cap.2.2.1 1 true 0 1 []
      (fun _ => []) (fun _ _ => 0) (fun _ _ => none) 0 1 (fun _ => 0)
      0 0 0 p n h
  · have hall : ∀ r, choose_path_from_hyperpath_states 1 true 0 1
        [⟨0, 0, Mode.access, 5, 0, 0, 0⟩] (fun _ => []) (fun _ _ => 0)
        1 (fun _ => 0) r =
        .ok (none, r + 1) := by
      intro r
      have hacc : accessCumProb 1 (0 : ℝ)
          [⟨0, 0, Mode.access, 5, 0, 0, 0⟩] =
          [(1000, ⟨0, 0, Mode.access, 5, 0, 0, 0⟩)] := by
        unfold accessCumProb
        simp only [List.foldl_cons, List.foldl_nil]
        norm_num [Real.exp_zero]
      unfold choose_path_from_hyperpath_states
      simp only [List.getLast?_singleton]
      rw [hacc]
      have hcs : choose_state ((fun (_ : ℕ) => (0 : ℤ)) r)
          [((1000 : ℤ), (⟨0, 0, Mode.access, 5, 0, 0, 0⟩ : HypState))] =
          .ok ⟨0, 0, Mode.access, 5, 0, 0, 0⟩ := by
        unfold choose_state
        norm_num [List.getLast?_singleton, List.find?]
      rw [hcs]
      simp only [sampleWalk, List.filter_nil]
    exact claim_c6_sampler_retry_cap.2.2.2 1 true 0 1
      [⟨0, 0, Mode.access, 5, 0, 0, 0⟩] (fun _ => []) (fun _ _ => 0)
      (fun _ _ => none) 0 1 (fun _ => 0) (fun r => r + 1) 0 hall

end FastTrips
